import Mathlib

/-!
# Gerbil: a verification development of `lib/gerbil.js`

The file embeds the test runner of `lib/gerbil.js` (the `Gerbil` object with
`enqueue`, `consume`, `execute`, `ok`, `fail`, `summary`, the `Gerbil.Queue`
and the assertion helpers of `Gerbil.prototype`) as Lean functions over an
explicit state, and proves properties of these functions.

Conventions of the embedding:

* a JavaScript value is a `JSValue`; a `throw` is a `Completion.throw`;
* what the JavaScript host supplies (stack traces, number and object
  stringification, the conversions of `==` between operands of different
  types, the clock, and what its timer `setTimeout` does with the handler it
  is given: take it, as a browser does, or throw, as Node does for a handler
  that is not a function) is a parameter, `Host`;
* everything the runner sends to the outside (logger lines, invocations of
  hooks and tests, calls of the host timer) is appended to `Gerbil.trace`, in
  order; the logger only records its lines;
* a hook or a test is a `Callback`: a function of the shared scope that says
  what the call leaves in the scope, what it does to the runner through the
  helpers of `Gerbil.prototype` (increments of `assertions`, delays added to
  `timeout`), and whether it returns or throws.

The file has the embedding first, then the reference definitions that the
statements are written with, then the lemmas, then the claims.
-/

namespace GerbilJS

/-! ## JavaScript values -/

/-- A JavaScript number: `NaN`, an infinity, or a finite value. Both zeros
are `fin 0`; they are equal under `==`. -/
inductive JSNumber where
  | nan : JSNumber
  | inf (negative : Bool) : JSNumber
  | fin (value : ℚ) : JSNumber
  deriving DecidableEq

/-- Equality of two numbers under `==`: `NaN` equals nothing. -/
def JSNumber.eq : JSNumber → JSNumber → Bool
  | JSNumber.nan, _ => false
  | _, JSNumber.nan => false
  | a, b => decide (a = b)

/-- The built-in constructors that `first.constructor` is compared with. -/
inductive Ctor where
  | Array | String | Number | Boolean | Function | Object | Other
  deriving DecidableEq

/-- A JavaScript value. Objects carry a reference, which is their identity;
an array carries its items; a function and an error object carry their
`name` property. -/
inductive JSValue where
  | undefined : JSValue
  | null : JSValue
  | boolean (b : Bool) : JSValue
  | number (n : JSNumber) : JSValue
  | string (s : String) : JSValue
  | array (ref : Nat) (items : List JSValue) : JSValue
  | object (ref : Nat) (ctor : Ctor) (name : Option String) : JSValue
  | function (ref : Nat) (name : String) : JSValue

/-- The result of evaluating a statement or a call: it returns, or it throws
a value. -/
inductive Completion where
  | normal : Completion
  | throw (value : JSValue) : Completion

/-- The operator `typeof`. -/
def typeof : JSValue → String
  | JSValue.undefined => "undefined"
  | JSValue.null => "object"
  | JSValue.boolean _ => "boolean"
  | JSValue.number _ => "number"
  | JSValue.string _ => "string"
  | JSValue.array _ _ => "object"
  | JSValue.object _ _ _ => "object"
  | JSValue.function _ _ => "function"

/-- The property `constructor` of a value that is neither `undefined` nor
`null`. -/
def constructorOf : JSValue → Ctor
  | JSValue.undefined => Ctor.Other
  | JSValue.null => Ctor.Other
  | JSValue.boolean _ => Ctor.Boolean
  | JSValue.number _ => Ctor.Number
  | JSValue.string _ => Ctor.String
  | JSValue.array _ _ => Ctor.Array
  | JSValue.object _ c _ => c
  | JSValue.function _ _ => Ctor.Function

/-- The property `length`. -/
def lengthOf : JSValue → JSValue
  | JSValue.array _ items => JSValue.number (JSNumber.fin items.length)
  | JSValue.string s => JSValue.number (JSNumber.fin s.length)
  | _ => JSValue.undefined

/-- The indexed property `v[i]`: an item of an array, `undefined` where there
is none. -/
def itemOf : JSValue → Nat → JSValue
  | JSValue.array _ items, i => items.getD i JSValue.undefined
  | _, _ => JSValue.undefined

/-- What the JavaScript host supplies. -/
structure Host where
  /-- The property `stack` of `new Error(message)`, when the host has one. -/
  stack : String → Option String
  /-- The text of a number in a string concatenation. -/
  numberText : JSNumber → String
  /-- The text of an object (array, function, other object) in a string
  concatenation. -/
  objectText : JSValue → String
  /-- The outcome of `==` between operands of different types, which goes
  through the host's conversions to number and to primitive. -/
  coerceEq : JSValue → JSValue → Bool
  /-- The value of `new Date().getTime()` at its `i`-th evaluation. -/
  clock : Nat → Nat
  /-- The `TypeError` raised by the engine for a property read on
  `undefined` or `null`, or a call of something that is not callable. -/
  typeError : JSValue
  /-- What the call `setTimeout(handler, delay)` of the host timer does: it
  returns, having registered the handler, or it throws. -/
  setTimeout : JSValue → Nat → Completion

/-- The text of a value in a string concatenation (`"" + v`). -/
def toText (h : Host) : JSValue → String
  | JSValue.undefined => "undefined"
  | JSValue.null => "null"
  | JSValue.boolean true => "true"
  | JSValue.boolean false => "false"
  | JSValue.number n => h.numberText n
  | JSValue.string s => s
  | v => h.objectText v

/-- Loose equality, the operator `==`. Operands of the same type are
compared by value (primitives) or by reference (objects); `undefined` and
`null` equal each other and nothing else; the other pairs go through the
host's conversions. -/
def looseEq (h : Host) : JSValue → JSValue → Bool
  | JSValue.undefined, JSValue.undefined => true
  | JSValue.undefined, JSValue.null => true
  | JSValue.null, JSValue.undefined => true
  | JSValue.null, JSValue.null => true
  | JSValue.undefined, _ => false
  | JSValue.null, _ => false
  | _, JSValue.undefined => false
  | _, JSValue.null => false
  | JSValue.boolean a, JSValue.boolean b => a == b
  | JSValue.number a, JSValue.number b => JSNumber.eq a b
  | JSValue.string a, JSValue.string b => a == b
  | JSValue.array r _, JSValue.array s _ => r == s
  | JSValue.object r _ _, JSValue.object s _ _ => r == s
  | JSValue.function r _, JSValue.function s _ => r == s
  | JSValue.array _ _, JSValue.object _ _ _ => false
  | JSValue.array _ _, JSValue.function _ _ => false
  | JSValue.object _ _ _, JSValue.array _ _ => false
  | JSValue.object _ _ _, JSValue.function _ _ => false
  | JSValue.function _ _, JSValue.array _ _ => false
  | JSValue.function _ _, JSValue.object _ _ _ => false
  | a, b => h.coerceEq a b

/-- Truthiness of a value (`if (v)`, `!v`, `a || b`). -/
def truthy : JSValue → Bool
  | JSValue.undefined => false
  | JSValue.null => false
  | JSValue.boolean b => b
  | JSValue.number JSNumber.nan => false
  | JSValue.number (JSNumber.inf _) => true
  | JSValue.number (JSNumber.fin q) => decide (q ≠ 0)
  | JSValue.string s => decide (s ≠ "")
  | _ => true

/-- `Gerbil.Error(message)`: `error.stack || error.message` of a new
`Error(message)`. -/
def Gerbil.Error (h : Host) (message : String) : String :=
  match h.stack message with
  | some s => if s = "" then message else s
  | none => message

/-! ## Gerbil.Queue -/

/-- The object built by `new Gerbil.Queue`: the physical store and the read
offset. -/
structure Gerbil.Queue (α : Type) where
  queue : List α
  offset : Nat

namespace Gerbil.Queue

variable {α : Type}

/-- `new Gerbil.Queue`. -/
def new : Gerbil.Queue α := { queue := [], offset := 0 }

/-- `length()`: `this.queue.length - this.offset`, a difference of
JavaScript numbers. -/
def length (q : Gerbil.Queue α) : Int := (q.queue.length : Int) - (q.offset : Int)

/-- `push(item)`. -/
def push (q : Gerbil.Queue α) (item : α) : Gerbil.Queue α :=
  { q with queue := q.queue ++ [item] }

/-- `pull()`: the item read (`none` is JavaScript's `undefined`) and the
queue afterwards. -/
def pull (q : Gerbil.Queue α) : Option α × Gerbil.Queue α :=
  if q.queue.length = 0 then (none, q)
  else
    let item := q.queue.get? q.offset
    let offset := q.offset + 1
    if offset * 2 ≥ q.queue.length then
      (item, { queue := q.queue.drop offset, offset := 0 })
    else
      (item, { queue := q.queue, offset := offset })

/-- The representation invariant of the queue. -/
def Inv (q : Gerbil.Queue α) : Prop := q.offset = 0 ∨ 2 * q.offset < q.queue.length

/-- The items pushed and not yet pulled, oldest first. -/
def pending (q : Gerbil.Queue α) : List α := q.queue.drop q.offset

/-- An operation on a queue. -/
inductive Op (α : Type) where
  | push (item : α)
  | pull
  | length

/-- What an operation answers: nothing for `push`, the item or the empty
signal for `pull`, a number for `length`. -/
inductive Reply (α : Type) where
  | pushed
  | pulled (item : Option α)
  | length (n : Int)

/-- Apply one operation to a `Gerbil.Queue`. -/
def apply (q : Gerbil.Queue α) : Op α → Reply α × Gerbil.Queue α
  | Op.push item => (Reply.pushed, q.push item)
  | Op.pull => (Reply.pulled q.pull.1, q.pull.2)
  | Op.length => (Reply.length q.length, q)

/-- Apply a sequence of operations to a `Gerbil.Queue` and collect the
answers. -/
def run : List (Op α) → Gerbil.Queue α → List (Reply α)
  | [], _ => []
  | op :: ops, q => (apply q op).1 :: run ops (apply q op).2

/-- The plain first-in first-out list that the queue is compared with: one
operation on the list of the items pushed and not yet returned. -/
def fifoApply (l : List α) : Op α → Reply α × List α
  | Op.push item => (Reply.pushed, l ++ [item])
  | Op.pull => (Reply.pulled l.head?, l.tail)
  | Op.length => (Reply.length l.length, l)

/-- A sequence of operations on the plain first-in first-out list. -/
def fifoRun : List (Op α) → List α → List (Reply α)
  | [], _ => []
  | op :: ops, l => (fifoApply l op).1 :: fifoRun ops (fifoApply l op).2

/-- Pull, then read the length, once per item of `ts` and once more. -/
def pullAll : List α → List (Op α)
  | [] => [Op.pull, Op.length]
  | _ :: ts => Op.pull :: Op.length :: pullAll ts

/-- The answers expected from `pullAll ts` on a queue holding `ts`: each
item in turn, each followed by the number of the items after it, then the
empty signal and zero. -/
def pullAllReplies : List α → List (Reply α)
  | [] => [Reply.pulled none, Reply.length 0]
  | t :: ts => Reply.pulled (some t) :: Reply.length ts.length :: pullAllReplies ts

end Gerbil.Queue

/-! ## The scenario runner -/

/-- The properties of the shared scope object, `var scope = {}` of `consume`. -/
abbrev Scope := List (String × JSValue)

/-- What one call of a hook or of a test does: the scope it leaves, how many
times it incremented `assertions` through the assertion helpers, how many
milliseconds it added to `timeout` through `set_timeout`, and whether it
returned or threw. -/
structure Effect where
  scope : Scope
  assertions : Nat
  timeout : Nat
  result : Completion

/-- A hook or a test: a function called with the shared scope as `this`. -/
abbrev Callback := Scope → Effect

/-- The default hook, `function() {}`. -/
def noop : Callback := fun scope =>
  { scope := scope, assertions := 0, timeout := 0, result := Completion.normal }

/-- A queued test, `{ name: key, fn: this.tests[key], time: ... }`. -/
structure TestRecord where
  name : String
  fn : Callback
  time : Nat

/-- Who is invoked: one of the four hooks, or the test of some name. -/
inductive Target where
  | setup | before | after | cleanup
  | test (name : String)
  deriving DecidableEq

/-- What the runner sends to the outside: a line on one of the four methods of
the logger, the invocation of a hook or test with the scope it receives, or a
call of the host timer `setTimeout(handler, delay)`. -/
inductive Event where
  | log (msg : String)
  | info (msg : String)
  | warn (msg : String)
  | error (msg : String)
  | invoke (target : Target) (scope : Scope)
  | setTimeout (handler : JSValue) (delay : Nat)

/-- The object built by `new Gerbil(description, tests, logger)`. The test
mapping `tests` is the list of its entries in enumeration order. The hooks are
`none` (JavaScript: not set) until `enqueue` sets them. -/
structure Gerbil where
  success : Nat
  failures : Nat
  count : Nat
  assertions : Nat
  timeout : Nat
  queue : Gerbil.Queue TestRecord
  description : String
  tests : List (String × Callback)
  setup : Option Callback
  before : Option Callback
  after : Option Callback
  cleanup : Option Callback
  trace : List Event

namespace Gerbil

/-- The constructor, `new Gerbil(description, tests, logger)`. -/
def create (description : String) (tests : List (String × Callback)) : Gerbil :=
  { success := 0, failures := 0, count := 0, assertions := 0, timeout := 0,
    queue := Gerbil.Queue.new, description := description, tests := tests,
    setup := none, before := none, after := none, cleanup := none, trace := [] }

/-- Send an event to the outside. -/
def emit (g : Gerbil) (e : Event) : Gerbil :=
  { g with trace := g.trace ++ [e] }

/-- `extract_test(key)`: the entry under `key` (the default hook when there is
none), and the runner with the entry deleted from the mapping. -/
def extract_test (g : Gerbil) (key : String) : Callback × Gerbil :=
  let test := g.tests.lookup key
  (test.getD noop, { g with tests := g.tests.filter (fun e => e.1 ≠ key) })

/-- `ok(message)`. -/
def ok (g : Gerbil) (message : String) : Gerbil :=
  let g := { g with success := g.success + 1 }
  g.emit (Event.log ("   * " ++ message ++ " (" ++ toString g.assertions ++ " assertions)"))

/-- `fail(message)`. -/
def fail (g : Gerbil) (message : String) : Gerbil :=
  let g := { g with failures := g.failures + 1 }
  g.emit (Event.error ("   x " ++ message))

/-- `summary()`. -/
def summary (g : Gerbil) : Gerbil :=
  let g := g.emit (Event.warn ("All tests completed: " ++ toString g.success ++ " passed, " ++
    toString g.failures ++ " failed of " ++ toString g.count ++ " tests"))
  g.emit (Event.info "")

/-- A call `fn.call(scope, this)` of a hook or test: calling what is not set
throws the engine's `TypeError`. -/
def invoke (h : Host) (g : Gerbil) (target : Target) (fn : Option Callback) (scope : Scope) :
    Gerbil × Scope × Completion :=
  match fn with
  | none => (g, scope, Completion.throw h.typeError)
  | some f =>
    let e := f scope
    ({ g with assertions := g.assertions + e.assertions, timeout := g.timeout + e.timeout,
              trace := g.trace ++ [Event.invoke target scope] }, e.scope, e.result)

/-- `execute(test, scope)`. The `try` calls the test and `ok`, the `catch`
calls `fail`. In the `finally`, `function() { this.summary(); }.apply(context)`
calls `summary` at once and is `undefined`, and that is the handler handed to
the host timer; what the timer throws, `execute` throws, since the call is
in the `finally`. -/
def execute (h : Host) (g : Gerbil) (test : TestRecord) (scope : Scope) :
    Gerbil × Scope × Completion :=
  let name := test.name
  let (g, scope, r) := invoke h g (Target.test name) (some test.fn) scope
  let g := match r with
    | Completion.normal => g.ok name
    | Completion.throw exception => g.fail (name ++ " (" ++ toText h exception ++ ")")
  if g.success + g.failures = g.count then
    let g := g.summary
    (g.emit (Event.setTimeout JSValue.undefined g.timeout), scope,
      h.setTimeout JSValue.undefined g.timeout)
  else (g, scope, Completion.normal)

/-- `enqueue()`. The clock is read once per record; the readings are numbered
by the records made so far. -/
def enqueue (h : Host) (g : Gerbil) : Gerbil :=
  let g := g.emit (Event.info ("== Running " ++ g.description ++ " =="))
  let (setup, g) := g.extract_test "setup"
  let g := { g with setup := some setup }
  let (before, g) := g.extract_test "before"
  let g := { g with before := some before }
  let (after, g) := g.extract_test "after"
  let g := { g with after := some after }
  let (cleanup, g) := g.extract_test "cleanup"
  let g := { g with cleanup := some cleanup }
  g.tests.foldl (fun g e =>
    { g with queue := g.queue.push { name := e.1, fn := e.2, time := h.clock g.count },
             count := g.count + 1 }) g

/-- The body of the `while` loop of `consume`: `before`, `execute`, `after`;
what one of them throws ends the body. -/
def iteration (h : Host) (g : Gerbil) (test : TestRecord) (scope : Scope) :
    Gerbil × Scope × Completion :=
  match invoke h g Target.before g.before scope with
  | (g, scope, Completion.throw v) => (g, scope, Completion.throw v)
  | (g, scope, Completion.normal) =>
    match g.execute h test scope with
    | (g, scope, Completion.throw v) => (g, scope, Completion.throw v)
    | (g, scope, Completion.normal) => invoke h g Target.after g.after scope

/-- The `while` loop of `consume`, `while (test = this.queue.pull())`. One
unit of fuel is used per evaluation of the loop condition; `none` means the
fuel ran out. -/
def drain (h : Host) : Nat → Gerbil → Scope → Option (Gerbil × Scope × Completion)
  | 0, _, _ => none
  | fuel + 1, g, scope =>
    match g.queue.pull with
    | (none, q) => some ({ g with queue := q }, scope, Completion.normal)
    | (some test, q) =>
      match iteration h { g with queue := q } test scope with
      | (g, scope, Completion.throw v) => some (g, scope, Completion.throw v)
      | (g, scope, Completion.normal) => drain h fuel g scope

/-- `consume()`: the runner and the scope when it ends, and whether it
returned or threw. The loop gets one unit of fuel more than the store of
the queue has slots. -/
def consume (h : Host) (g : Gerbil) : Option (Gerbil × Scope × Completion) :=
  let scope : Scope := []
  match invoke h g Target.setup g.setup scope with
  | (g, scope, Completion.throw v) => some (g, scope, Completion.throw v)
  | (g, scope, Completion.normal) =>
    match drain h (g.queue.queue.length + 1) g scope with
    | none => none
    | some (g, scope, Completion.throw v) => some (g, scope, Completion.throw v)
    | some (g, scope, Completion.normal) => some (invoke h g Target.cleanup g.cleanup scope)

/-! ## The assertion helpers of `Gerbil.prototype` -/

/-- `assert(expectation)`. -/
def assert (h : Host) (g : Gerbil) (expectation : JSValue) : Gerbil × Completion :=
  let g := { g with assertions := g.assertions + 1 }
  if !truthy expectation then
    (g, Completion.throw (JSValue.string (Gerbil.Error h "Assertion Failed")))
  else (g, Completion.normal)

/-- The property read `v.name`: it throws on `undefined` and `null`. -/
def nameOf (h : Host) : JSValue → Except JSValue JSValue
  | JSValue.undefined => Except.error h.typeError
  | JSValue.null => Except.error h.typeError
  | JSValue.function _ n => Except.ok (JSValue.string n)
  | JSValue.object _ _ (some n) => Except.ok (JSValue.string n)
  | _ => Except.ok JSValue.undefined

/-- `assert_throw(expected_error, fn)`; `fn ()` is the call `fn()`. The first
step is the `try` block, whose outcome is the new `error_message` or the
exception that it threw; the second is the `catch` block, which may throw
in its turn; the last is `if (error_message) throw ...`. -/
def assert_throw (h : Host) (g : Gerbil) (expected_error : JSValue) (fn : Unit → Completion) :
    Gerbil × Completion :=
  let g := { g with assertions := g.assertions + 1 }
  let error_message := JSValue.boolean false
  let tried : Except JSValue JSValue :=
    match fn () with
    | Completion.throw exception => Except.error exception
    | Completion.normal =>
      match nameOf h expected_error with
      | Except.error exception => Except.error exception
      | Except.ok n => Except.ok (JSValue.string (toText h n ++ " was expected but not raised."))
  let caught : Except JSValue JSValue :=
    match tried with
    | Except.ok message => Except.ok message
    | Except.error exception =>
      if typeof exception = typeof expected_error then
        match nameOf h expected_error with
        | Except.error e => Except.error e
        | Except.ok n =>
          match nameOf h exception with
          | Except.error e => Except.error e
          | Except.ok m =>
            Except.ok (JSValue.string
              (toText h n ++ " was expected but " ++ toText h m ++ " was raised."))
      else Except.ok error_message
  match caught with
  | Except.error e => (g, Completion.throw e)
  | Except.ok message =>
    if truthy message then
      (g, Completion.throw (JSValue.string (Gerbil.Error h (toText h message))))
    else (g, Completion.normal)

/-- The value of the comma expression `a, b`: its right operand. -/
def comma (_a b : Ctor) : Ctor := b

/-- The `for` loop of `assert_equal`, from index `i`, with `n` indices left
to visit. -/
def itemsLoop (h : Host) (first second : JSValue) : Nat → Nat → Completion
  | 0, _ => Completion.normal
  | n + 1, i =>
    if !looseEq h (itemOf first i) (itemOf second i) then
      Completion.throw (JSValue.string (Gerbil.Error h
        ("Items not equal " ++ toText h (itemOf first i) ++ " != " ++ toText h (itemOf second i))))
    else itemsLoop h first second n (i + 1)

/-- The number of indices `i` with `i < first.length`. -/
def loopBound : JSValue → Nat
  | JSValue.array _ items => items.length
  | JSValue.string s => s.length
  | _ => 0

/-- `assert_equal(first, second)`. The `switch` compares `first.constructor`
with the labels `Array` and `String, Number` in turn. -/
def assert_equal (h : Host) (g : Gerbil) (first second : JSValue) : Gerbil × Completion :=
  if looseEq h first JSValue.undefined || looseEq h second JSValue.undefined then
    (g, Completion.throw (JSValue.string (Gerbil.Error h
      ("attr1 = " ++ toText h first ++ " (" ++ typeof first ++ ") " ++ "and attr2 = " ++
        toText h second ++ " (" ++ typeof second ++ ")"))))
  else if typeof first ≠ typeof second then
    (g, Completion.throw (JSValue.string (Gerbil.Error h
      ("Different type " ++ typeof first ++ " vs " ++ typeof second))))
  else
    let g := { g with assertions := g.assertions + 1 }
    if constructorOf first = Ctor.Array then
      if !looseEq h (lengthOf first) (lengthOf second) then
        (g, Completion.throw (JSValue.string (Gerbil.Error h "Different Lengths")))
      else (g, itemsLoop h first second (loopBound first) 0)
    else if constructorOf first = comma Ctor.String Ctor.Number then
      if !looseEq h first second then
        (g, Completion.throw (JSValue.string (Gerbil.Error h
          ("Not equal " ++ toText h first ++ " != " ++ toText h second))))
      else (g, Completion.normal)
    else (g, Completion.normal)

end Gerbil

/-- The entry point, `scenario(description, tests, logger)`. -/
def scenario (h : Host) (description : String) (tests : List (String × Callback)) :
    Option (Gerbil × Scope × Completion) :=
  let current_scenario := Gerbil.create description tests
  let current_scenario := current_scenario.enqueue h
  current_scenario.consume h

/-! ## Reference definitions

The notions that the statements below are written with. -/

/-- The four reserved keys of a test mapping. -/
def reserved : List String := ["setup", "before", "after", "cleanup"]

/-- The entries of a test mapping that are tests: those not under a reserved key. -/
def testsOf (tests : List (String × Callback)) : List (String × Callback) :=
  tests.filter (fun e => e.1 ∉ reserved)

/-- The hook of a test mapping under `key`: the entry, or the default hook. -/
def hookOf (tests : List (String × Callback)) (key : String) : Callback :=
  (tests.lookup key).getD noop

/-- The test records of the entries `ts`, created from the `i`-th reading of the clock on. -/
def records (h : Host) : Nat → List (String × Callback) → List TestRecord
  | _, [] => []
  | i, e :: ts => { name := e.1, fn := e.2, time := h.clock i } :: records h (i + 1) ts

/-- The loop of `consume` over the list of the tests that the queue holds. -/
def Gerbil.drainList (h : Host) : List TestRecord → Gerbil → Scope → Gerbil × Scope × Completion
  | [], g, scope => ({ g with queue := g.queue.pull.2 }, scope, Completion.normal)
  | test :: ts, g, scope =>
    match Gerbil.iteration h { g with queue := g.queue.pull.2 } test scope with
    | (g, scope, Completion.throw v) => (g, scope, Completion.throw v)
    | (g, scope, Completion.normal) => Gerbil.drainList h ts g scope

/-- Whether a call returned. -/
def Completion.isNormal : Completion → Bool
  | Completion.normal => true
  | Completion.throw _ => false

/-- The invocations of hooks and tests in a trace, in order, each with the
scope it received. -/
def calls (trace : List Event) : List (Target × Scope) :=
  trace.filterMap (fun e => match e with
    | Event.invoke t s => some (t, s)
    | _ => none)

/-- The name of the test that a call invokes, if it invokes a test. -/
def testName : Target × Scope → Option String
  | (Target.test name, _) => some name
  | _ => none

/-- The names of the tests executed in a trace, in order. -/
def executed (trace : List Event) : List String := (calls trace).filterMap testName

/-- Whether an event belongs to the summary: the summary line, or the timer
registration that goes with it. -/
def Event.isSummary : Event → Bool
  | Event.warn _ => true
  | Event.setTimeout _ _ => true
  | _ => false

/-- The summary events of a trace. -/
def summaries (trace : List Event) : List Event := trace.filter Event.isSummary

/-- The entry of the test mapping that a test record was made from. -/
def TestRecord.entry (r : TestRecord) : String × Callback := (r.name, r.fn)

/-- The scope that one round leaves: `before`, the test `e`, `after`, each
called with the scope that the one before it left. -/
def roundScope (before after : Callback) (s : Scope) (e : String × Callback) : Scope :=
  (after (e.2 (before s).scope).scope).scope

/-- The scope left by the rounds of the tests `ts`, started with the scope `s`. -/
def scopeAfter (before after : Callback) : Scope → List (String × Callback) → Scope
  | s, [] => s
  | s, e :: ts => scopeAfter before after (roundScope before after s e) ts

/-- No hook throws in the rounds of the tests `ts` started with the scope
`s`: every call of `before` and of `after` returns. -/
def quiet (before after : Callback) : Scope → List (String × Callback) → Prop
  | _, [] => True
  | s, e :: ts =>
    (before s).result = Completion.normal ∧
    (after (e.2 (before s).scope).scope).result = Completion.normal ∧
    quiet before after (roundScope before after s e) ts

/-- For each test of `ts` in turn, whether its function returned (`true`) or
threw (`false`) in the rounds started with the scope `s`. -/
def verdicts (before after : Callback) : Scope → List (String × Callback) → List Bool
  | _, [] => []
  | s, e :: ts =>
    (e.2 (before s).scope).result.isNormal ::
      verdicts before after (roundScope before after s e) ts

/-- The calls of the rounds of the tests `ts` started with the scope `s`:
per test `before`, the test, `after`, each with the scope left by the call
before it. -/
def roundCalls (before after : Callback) : Scope → List (String × Callback) →
    List (Target × Scope)
  | _, [] => []
  | s, e :: ts =>
    (Target.before, s) :: (Target.test e.1, (before s).scope) ::
      (Target.after, (e.2 (before s).scope).scope) ::
      roundCalls before after (roundScope before after s e) ts

/-- The hook of a test mapping that a target names. -/
def hookFor (tests : List (String × Callback)) : Target → Option Callback
  | Target.setup => some (hookOf tests "setup")
  | Target.before => some (hookOf tests "before")
  | Target.after => some (hookOf tests "after")
  | Target.cleanup => some (hookOf tests "cleanup")
  | Target.test _ => none

/-- The lines sent to the method `log` of the logger in a trace, in order. -/
def logLines (trace : List Event) : List String :=
  trace.filterMap (fun e => match e with
    | Event.log msg => some msg
    | _ => none)

/-- The line that `ok` logs for the test `name` when `assertions` has the
value `n`. -/
def okLine (name : String) (n : Nat) : String :=
  "   * " ++ name ++ " (" ++ toString n ++ " assertions)"

/-- For each test of `ts` whose function returned, in the order of the
run, its name and the number of the increments of `assertions` made by all the
calls of hooks and tests up to the return of that test; `n` is the number of
the increments made before the rounds of `ts`, which start with the scope `s`
and stop when a hook throws. -/
def okReports (before after : Callback) : Nat → Scope → List (String × Callback) →
    List (String × Nat)
  | _, _, [] => []
  | n, s, e :: ts =>
    match (before s).result with
    | Completion.throw _ => []
    | Completion.normal =>
      (if (e.2 (before s).scope).result.isNormal then
        [(e.1, n + (before s).assertions + (e.2 (before s).scope).assertions)] else []) ++
      match (after (e.2 (before s).scope).scope).result with
      | Completion.throw _ => []
      | Completion.normal =>
        okReports before after
          (n + (before s).assertions + (e.2 (before s).scope).assertions +
            (after (e.2 (before s).scope).scope).assertions)
          (roundScope before after s e) ts

/-- The reports of the tests that returned in the run of a test mapping:
none when `setup` throws, else those of the rounds, which start with the
increments and the scope that `setup` leaves. -/
def runReports (tests : List (String × Callback)) : List (String × Nat) :=
  match (hookOf tests "setup" []).result with
  | Completion.throw _ => []
  | Completion.normal =>
    okReports (hookOf tests "before") (hookOf tests "after")
      (hookOf tests "setup" []).assertions (hookOf tests "setup" []).scope (testsOf tests)

/-- The line that `summary` sends to `warn` for the given values of
`success`, `failures` and `count`. -/
def summaryLine (success failures count : Nat) : String :=
  "All tests completed: " ++ toString success ++ " passed, " ++ toString failures ++
    " failed of " ++ toString count ++ " tests"

/-! ## Concrete inputs -/

/-- The timer of Node: it takes a function and throws the `TypeError` for
any other handler. -/
def nodeTimer (typeError : JSValue) : JSValue → Nat → Completion
  | JSValue.function _ _, _ => Completion.normal
  | _, _ => Completion.throw typeError

/-- A host for the concrete runs: no stack traces, fixed texts, no conversions,
and the timer of Node. -/
def sampleHost : Host :=
  { stack := fun _ => none, numberText := fun _ => "number", objectText := fun _ => "object",
    coerceEq := fun _ _ => false, clock := fun i => i,
    typeError := JSValue.object 0 Ctor.Other (some "TypeError"),
    setTimeout := nodeTimer (JSValue.object 0 Ctor.Other (some "TypeError")) }

/-- The same host with the timer of a browser, which takes any handler. -/
def browserHost : Host :=
  { sampleHost with setTimeout := fun _ _ => Completion.normal }

/-- A test or hook that returns without doing anything else. -/
def passes : Callback := noop

/-- A test or hook that throws the text `message`. -/
def throws (message : String) : Callback := fun scope =>
  { scope := scope, assertions := 0, timeout := 0,
    result := Completion.throw (JSValue.string message) }

/-- The mapping `{ a: passes, b: throws("x"), c: passes }`. -/
def abcTests : List (String × Callback) :=
  [("a", passes), ("b", throws "x"), ("c", passes)]

/-- A `before` hook that marks the scope on its first call and throws on
every later one. -/
def beforeOnce : Callback := fun scope =>
  match scope.lookup "seen" with
  | none =>
    { scope := ("seen", JSValue.boolean true) :: scope, assertions := 0, timeout := 0,
      result := Completion.normal }
  | some _ =>
    { scope := scope, assertions := 0, timeout := 0,
      result := Completion.throw (JSValue.string "again") }

/-- The mapping `{ before: beforeOnce, a: passes, b: passes, c: passes }`. -/
def guardedTests : List (String × Callback) :=
  [("before", beforeOnce), ("a", passes), ("b", passes), ("c", passes)]

/-- The mapping `{ a: passes, cleanup: throws("boom") }`. -/
def cleanupTests : List (String × Callback) :=
  [("a", passes), ("cleanup", throws "boom")]

/-- A hook or test that sets the property `key` of the scope to `true`. -/
def marks (key : String) : Callback := fun scope =>
  { scope := (key, JSValue.boolean true) :: scope, assertions := 0, timeout := 0,
    result := Completion.normal }

/-- The mapping `{ setup: marks("s"), a: marks("a"), cleanup: passes, b: passes }`. -/
def markedTests : List (String × Callback) :=
  [("setup", marks "s"), ("a", marks "a"), ("cleanup", passes), ("b", passes)]

/-- The number `1`. -/
def one : JSValue := JSValue.number (JSNumber.fin 1)

/-- The number `2`. -/
def two : JSValue := JSValue.number (JSNumber.fin 2)

/-- The number `3`. -/
def three : JSValue := JSValue.number (JSNumber.fin 3)

/-- A host whose `==` finds every two operands of different types equal
after conversion. -/
def coercingHost : Host :=
  { stack := fun _ => none, numberText := fun _ => "number", objectText := fun _ => "object",
    coerceEq := fun _ _ => true, clock := fun i => i,
    typeError := JSValue.object 0 Ctor.Other (some "TypeError"),
    setTimeout := nodeTimer (JSValue.object 0 Ctor.Other (some "TypeError")) }

/-- The mapping `{ setup: marks("s"), a: marks("a"), cleanup: passes, b: passes }`
after `enqueue`. -/
def markedEnqueued : Gerbil := (Gerbil.create "d" markedTests).enqueue sampleHost

/-- A hook or test that makes `n` assertions, all of which hold, and returns. -/
def asserting (n : Nat) : Callback := fun scope =>
  { scope := scope, assertions := n, timeout := 0, result := Completion.normal }

/-- A test that makes `n` assertions, the last of which fails with the text
`message`. -/
def failing (n : Nat) (message : String) : Callback := fun scope =>
  { scope := scope, assertions := n, timeout := 0,
    result := Completion.throw (JSValue.string message) }

/-- The mapping `{ setup: asserting(1), a: asserting(2), b: failing(1, "x"),
c: passes }`. -/
def countingTests : List (String × Callback) :=
  [("setup", asserting 1), ("a", asserting 2), ("b", failing 1 "x"), ("c", passes)]

/-- The mapping `{ setup: marks("s"), cleanup: passes }`, which has no test. -/
def hooksOnly : List (String × Callback) :=
  [("setup", marks "s"), ("cleanup", passes)]

namespace Gerbil.Queue

variable {α : Type}

/-- The states that a queue can be in: those reached from a new queue by
`push` and `pull`. -/
inductive Reachable : Gerbil.Queue α → Prop where
  | new : Reachable Gerbil.Queue.new
  | push (q : Gerbil.Queue α) (item : α) : Reachable q → Reachable (q.push item)
  | pull (q : Gerbil.Queue α) : Reachable q → Reachable q.pull.2

/-- The queue after `push(1)`, `push(2)`, `push(3)`. -/
def threeItems : Gerbil.Queue Nat := ((Gerbil.Queue.new.push 1).push 2).push 3

end Gerbil.Queue

/-! ## The queue -/

namespace Gerbil.Queue

variable {α : Type}

theorem inv_new : Inv (new : Gerbil.Queue α) := Or.inl rfl

theorem inv_push (q : Gerbil.Queue α) (x : α) (hq : Inv q) : Inv (q.push x) := by
  rcases hq with h | h
  · exact Or.inl h
  · right
    simp only [push, List.length_append, List.length_singleton]
    omega

theorem pending_push (q : Gerbil.Queue α) (x : α) (hq : Inv q) :
    (q.push x).pending = q.pending ++ [x] := by
  have hle : q.offset ≤ q.queue.length := by
    rcases hq with h | h <;> omega
  simp only [pending, push]
  exact List.drop_append_of_le_length hle

theorem pull_eq (q : Gerbil.Queue α) :
    q.pull = if q.queue.length = 0 then (none, q)
      else if (q.offset + 1) * 2 ≥ q.queue.length then
        (q.queue.get? q.offset, { queue := q.queue.drop (q.offset + 1), offset := 0 })
      else (q.queue.get? q.offset, { queue := q.queue, offset := q.offset + 1 }) := rfl

theorem inv_pull (q : Gerbil.Queue α) (hq : Inv q) : Inv q.pull.2 := by
  rw [pull_eq]
  split_ifs with h0 h1
  · exact hq
  · exact Or.inl rfl
  · right
    simp only
    omega

theorem pull_fst (q : Gerbil.Queue α) : q.pull.1 = q.pending.head? := by
  rw [pull_eq]
  unfold pending
  split_ifs with h0 h1
  · have : q.queue = [] := List.length_eq_zero.mp h0
    simp [this]
  · simp [List.head?_drop]
  · simp [List.head?_drop]

theorem pending_pull (q : Gerbil.Queue α) : q.pull.2.pending = q.pending.tail := by
  rw [pull_eq]
  unfold pending
  split_ifs with h0 h1
  · have : q.queue = [] := List.length_eq_zero.mp h0
    simp [this]
  · simp [List.tail_drop]
  · simp [List.tail_drop]

theorem length_eq (q : Gerbil.Queue α) (hq : Inv q) : q.length = q.pending.length := by
  have hle : q.offset ≤ q.queue.length := by
    rcases hq with h | h <;> omega
  simp only [length, pending, List.length_drop]
  omega


theorem apply_sim (q : Gerbil.Queue α) (hq : Inv q) (op : Op α) :
    (apply q op).1 = (fifoApply q.pending op).1 ∧
      Inv (apply q op).2 ∧ (apply q op).2.pending = (fifoApply q.pending op).2 := by
  cases op with
  | push item => exact ⟨rfl, inv_push q item hq, pending_push q item hq⟩
  | pull =>
    refine ⟨?_, inv_pull q hq, pending_pull q⟩
    simp only [apply, fifoApply, pull_fst]
  | length =>
    refine ⟨?_, hq, rfl⟩
    simp only [apply, fifoApply, length_eq q hq]

theorem run_sim (ops : List (Op α)) :
    ∀ q : Gerbil.Queue α, Inv q → run ops q = fifoRun ops q.pending := by
  induction ops with
  | nil => intro q _; rfl
  | cons op ops ih =>
    intro q hq
    obtain ⟨h1, h2, h3⟩ := apply_sim q hq op
    simp only [run, fifoRun, h1, ih _ h2, h3]

theorem fifoRun_append (ops ops2 : List (Op α)) :
    ∀ l : List α, fifoRun (ops ++ ops2) l =
      fifoRun ops l ++ fifoRun ops2 (ops.foldl (fun l op => (fifoApply l op).2) l) := by
  induction ops with
  | nil => intro l; rfl
  | cons op ops ih => intro l; simp [fifoRun, ih]

theorem fifoRun_pushes (ts : List α) :
    ∀ l : List α, fifoRun (ts.map Op.push) l = ts.map (fun _ => Reply.pushed) ∧
      (ts.map Op.push).foldl (fun l op => (fifoApply l op).2) l = l ++ ts := by
  induction ts with
  | nil => intro l; simp [fifoRun]
  | cons t ts ih =>
    intro l
    obtain ⟨a, b⟩ := ih (fifoApply l (Op.push t)).2
    refine ⟨?_, ?_⟩
    · simp only [List.map_cons, fifoRun, a]
      rfl
    · simp only [List.map_cons, List.foldl_cons, b]
      simp [fifoApply]

theorem fifoRun_pullAll (ts : List α) : fifoRun (pullAll ts) ts = pullAllReplies ts := by
  induction ts with
  | nil => simp [pullAll, fifoRun, fifoApply, pullAllReplies]
  | cons t ts ih => simp [pullAll, fifoRun, fifoApply, pullAllReplies, ih]

theorem pullAllReplies_at (ts : List α) :
    ∀ k, (∀ hk : k < ts.length,
      (pullAllReplies ts)[2 * k]? = some (Reply.pulled (some ts[k])) ∧
      (pullAllReplies ts)[2 * k + 1]? =
        some (Reply.length ((ts.length : Int) - ((k : Int) + 1)))) ∧
    (k = ts.length →
      (pullAllReplies ts)[2 * k]? = some (Reply.pulled none) ∧
      (pullAllReplies ts)[2 * k + 1]? = some (Reply.length 0)) := by
  induction ts with
  | nil =>
    intro k
    refine ⟨fun hk => absurd hk (Nat.not_lt_zero k), ?_⟩
    intro hk
    subst hk
    exact ⟨rfl, rfl⟩
  | cons t ts ih =>
    intro k
    cases k with
    | zero =>
      refine ⟨fun _ => ⟨rfl, ?_⟩, fun hk => by simp at hk⟩
      simp [pullAllReplies]
    | succ k =>
      have e1 : 2 * (k + 1) = 2 * k + 1 + 1 := by omega
      obtain ⟨i1, i2⟩ := ih k
      refine ⟨fun hk => ?_, fun hk => ?_⟩
      · have hk2 : k < ts.length := by simpa using hk
        obtain ⟨j1, j2⟩ := i1 hk2
        rw [e1]
        simp only [pullAllReplies, List.getElem?_cons_succ, List.getElem_cons_succ, j1, j2,
          List.length_cons]
        refine ⟨trivial, ?_⟩
        congr 2
        push_cast
        ring
      · have hk2 : k = ts.length := by simpa using hk
        obtain ⟨j1, j2⟩ := i2 hk2
        rw [e1]
        simp only [pullAllReplies, List.getElem?_cons_succ, j1, j2]
        exact ⟨trivial, trivial⟩

end Gerbil.Queue

/-! ## The runner: the loop and its rounds -/

theorem Gerbil.invoke_queue (h : Host) (g : Gerbil) (t : Target) (f : Option Callback) (s : Scope) :
    (Gerbil.invoke h g t f s).1.queue = g.queue := by
  cases f <;> rfl

theorem Gerbil.execute_queue (h : Host) (g : Gerbil) (t : TestRecord) (s : Scope) :
    (Gerbil.execute h g t s).1.queue = g.queue := by
  simp only [Gerbil.execute, Gerbil.invoke]
  split <;> split <;> rfl

theorem Gerbil.iteration_queue (h : Host) (g : Gerbil) (t : TestRecord) (s : Scope) :
    (Gerbil.iteration h g t s).1.queue = g.queue := by
  unfold Gerbil.iteration
  have h1 := Gerbil.invoke_queue h g Target.before g.before s
  rcases hi : Gerbil.invoke h g Target.before g.before s with ⟨g1, s1, c1⟩
  rw [hi] at h1
  simp only at h1
  cases c1 with
  | throw v => exact h1
  | normal =>
    simp only
    have h2 := Gerbil.execute_queue h g1 t s1
    rcases he : Gerbil.execute h g1 t s1 with ⟨g2, s2, c2⟩
    rw [he] at h2
    simp only at h2
    cases c2 with
    | throw v => simp only; rw [h2, h1]
    | normal => simp only; rw [Gerbil.invoke_queue, h2, h1]

theorem Gerbil.drain_eq (h : Host) (ts : List TestRecord) :
    ∀ (fuel : Nat) (g : Gerbil) (s : Scope), g.queue.pending = ts → ts.length < fuel →
      Gerbil.drain h fuel g s = some (Gerbil.drainList h ts g s) := by
  induction ts with
  | nil =>
    intro fuel g s hp hf
    cases fuel with
    | zero => omega
    | succ fuel =>
      have h1 : g.queue.pull.1 = none := by rw [Gerbil.Queue.pull_fst, hp]; rfl
      unfold Gerbil.drain
      split
      · next q heq => simp [Gerbil.drainList, heq]
      · next t q heq => rw [heq] at h1; cases h1
  | cons t ts ih =>
    intro fuel g s hp hf
    cases fuel with
    | zero => omega
    | succ fuel =>
      have h1 : g.queue.pull.1 = some t := by rw [Gerbil.Queue.pull_fst, hp]; rfl
      have h2 : g.queue.pull.2.pending = ts := by rw [Gerbil.Queue.pending_pull, hp]; rfl
      unfold Gerbil.drain
      split
      · next q heq => rw [heq] at h1; cases h1
      · next t2 q heq =>
        rw [heq] at h1 h2
        simp only [Option.some.injEq] at h1
        subst h1
        have hq : g.queue.pull.2 = q := by rw [heq]
        simp only at h2
        rw [Gerbil.drainList, hq]
        have hit := Gerbil.iteration_queue h { g with queue := q } t2 s
        rcases hr : Gerbil.iteration h { g with queue := q } t2 s with ⟨g1, s1, c⟩
        rw [hr] at hit
        simp only at hit
        cases c with
        | throw v => rfl
        | normal =>
          simp only
          apply ih
          · rw [hit]; exact h2
          · simp only [List.length_cons] at hf; omega


theorem lookup_filter_ne (k k2 : String) (hk : k ≠ k2) (l : List (String × Callback)) :
    (l.filter (fun e => e.1 ≠ k2)).lookup k = l.lookup k := by
  induction l with
  | nil => rfl
  | cons e l ih =>
    obtain ⟨a, f⟩ := e
    by_cases ha : a = k2
    · subst ha
      have : (k == a) = false := by simpa using hk
      simp only [ne_eq, decide_not] at ih
      simp [List.filter_cons, List.lookup_cons, this, ih]
    · by_cases hka : k = a
      · subst hka
        simp [List.filter_cons, List.lookup_cons, ha]
      · have : (k == a) = false := by simpa using hka
        simp only [ne_eq, decide_not] at ih
        simp [List.filter_cons, List.lookup_cons, ha, this, ih]

theorem filter_reserved (l : List (String × Callback)) :
    (((l.filter (fun e => e.1 ≠ "setup")).filter (fun e => e.1 ≠ "before")).filter
      (fun e => e.1 ≠ "after")).filter (fun e => e.1 ≠ "cleanup") = testsOf l := by
  simp only [testsOf, reserved, List.filter_filter]
  congr 1
  funext e
  simp only [ne_eq, decide_not, List.mem_cons, List.mem_singleton, List.not_mem_nil, or_false,
    not_or, Bool.decide_and]
  cases decide (e.1 = "setup") <;> cases decide (e.1 = "before") <;>
    cases decide (e.1 = "after") <;> cases decide (e.1 = "cleanup") <;> rfl

theorem enqueue_foldl (h : Host) (ts : List (String × Callback)) :
    ∀ g : Gerbil, ts.foldl (fun g e =>
      { g with queue := g.queue.push { name := e.1, fn := e.2, time := h.clock g.count },
               count := g.count + 1 }) g =
      { g with queue := { queue := g.queue.queue ++ records h g.count ts, offset := g.queue.offset },
               count := g.count + ts.length } := by
  induction ts with
  | nil => intro g; simp [records]
  | cons e ts ih =>
    intro g
    rw [List.foldl_cons, ih]
    simp only [records, Gerbil.Queue.push, List.length_cons, List.append_assoc,
      List.singleton_append, Nat.add_assoc, Nat.add_comm 1]

theorem enqueue_create (h : Host) (d : String) (tests : List (String × Callback)) :
    (Gerbil.create d tests).enqueue h =
      { success := 0, failures := 0, count := (testsOf tests).length, assertions := 0, timeout := 0,
        queue := { queue := records h 0 (testsOf tests), offset := 0 }, description := d,
        tests := testsOf tests,
        setup := some (hookOf tests "setup"), before := some (hookOf tests "before"),
        after := some (hookOf tests "after"), cleanup := some (hookOf tests "cleanup"),
        trace := [Event.info ("== Running " ++ d ++ " ==")] } := by
  simp only [Gerbil.enqueue, Gerbil.create, Gerbil.extract_test, Gerbil.emit, enqueue_foldl,
    filter_reserved, hookOf, Gerbil.Queue.new, List.nil_append, Nat.zero_add]
  rw [lookup_filter_ne _ _ (by decide), lookup_filter_ne _ _ (by decide),
    lookup_filter_ne _ _ (by decide), lookup_filter_ne _ _ (by decide),
    lookup_filter_ne _ _ (by decide), lookup_filter_ne _ _ (by decide)]

theorem calls_append (t1 t2 : List Event) : calls (t1 ++ t2) = calls t1 ++ calls t2 := by
  simp [calls, List.filterMap_append]

theorem summaries_append (t1 t2 : List Event) :
    summaries (t1 ++ t2) = summaries t1 ++ summaries t2 := by
  simp [summaries, List.filter_append]

/-- What `execute` does to the runner, read through `calls`, `summaries` and
the counters, and how it ends: it throws only what the host timer throws,
and it calls the timer only when the completion check holds. -/
theorem Gerbil.execute_facts (h : Host) (g : Gerbil) (t : TestRecord) (s : Scope) :
    (g.execute h t s).2.1 = (t.fn s).scope ∧
    (g.execute h t s).1.success = g.success + (if (t.fn s).result.isNormal then 1 else 0) ∧
    (g.execute h t s).1.failures = g.failures + (if (t.fn s).result.isNormal then 0 else 1) ∧
    (g.execute h t s).1.count = g.count ∧
    (g.execute h t s).1.queue = g.queue ∧
    (g.execute h t s).1.setup = g.setup ∧
    (g.execute h t s).1.before = g.before ∧
    (g.execute h t s).1.after = g.after ∧
    (g.execute h t s).1.cleanup = g.cleanup ∧
    calls (g.execute h t s).1.trace = calls g.trace ++ [(Target.test t.name, s)] ∧
    (g.success + g.failures + 1 ≠ g.count →
      summaries (g.execute h t s).1.trace = summaries g.trace ∧
      (g.execute h t s).2.2 = Completion.normal) ∧
    (g.success + g.failures + 1 = g.count →
      summaries (g.execute h t s).1.trace ≠ [] ∧
      (g.execute h t s).2.2 = h.setTimeout JSValue.undefined (g.timeout + (t.fn s).timeout)) := by
  cases hr : (t.fn s).result with
  | normal =>
    by_cases hc : g.success + 1 + g.failures = g.count
    · have hc2 : g.success + g.failures + 1 = g.count := by omega
      simp [Gerbil.execute, Gerbil.invoke, hr, Gerbil.ok, Gerbil.fail, Gerbil.summary, Gerbil.emit,
        hc, hc2, Completion.isNormal, calls, summaries, Event.isSummary, List.filter_cons]
    · have hc2 : ¬ g.success + g.failures + 1 = g.count := by omega
      simp [Gerbil.execute, Gerbil.invoke, hr, Gerbil.ok, Gerbil.fail, Gerbil.summary, Gerbil.emit,
        hc, hc2, Completion.isNormal, calls, summaries, Event.isSummary, List.filter_cons]
  | throw v =>
    by_cases hc : g.success + (g.failures + 1) = g.count
    · have hc2 : g.success + g.failures + 1 = g.count := by omega
      simp [Gerbil.execute, Gerbil.invoke, hr, Gerbil.ok, Gerbil.fail, Gerbil.summary, Gerbil.emit,
        hc, hc2, Completion.isNormal, calls, summaries, Event.isSummary, List.filter_cons]
    · have hc2 : ¬ g.success + g.failures + 1 = g.count := by omega
      simp [Gerbil.execute, Gerbil.invoke, hr, Gerbil.ok, Gerbil.fail, Gerbil.summary, Gerbil.emit,
        hc, hc2, Completion.isNormal, calls, summaries, Event.isSummary, List.filter_cons]

theorem Gerbil.invoke_some (h : Host) (g : Gerbil) (t : Target) (f : Callback) (s : Scope) :
    Gerbil.invoke h g t (some f) s =
      ({ g with assertions := g.assertions + (f s).assertions,
                timeout := g.timeout + (f s).timeout,
                trace := g.trace ++ [Event.invoke t s] }, (f s).scope, (f s).result) := rfl

/-- The round whose call of `before` throws. -/
theorem Gerbil.iteration_before_throws (h : Host) (g : Gerbil) (t : TestRecord) (s : Scope)
    (b : Callback) (v : JSValue) (hb : g.before = some b)
    (hr : (b s).result = Completion.throw v) :
    g.iteration h t s =
      ({ g with assertions := g.assertions + (b s).assertions,
                timeout := g.timeout + (b s).timeout,
                trace := g.trace ++ [Event.invoke Target.before s] }, (b s).scope,
        Completion.throw v) := by
  simp only [Gerbil.iteration, hb, Gerbil.invoke_some, hr]

/-- The round whose call of `before` returns, unfolded: `execute`, and then
`after` when `execute` returns. -/
theorem Gerbil.iteration_before_returns (h : Host) (g g1 : Gerbil) (t : TestRecord) (s : Scope)
    (b a : Callback) (hb : g.before = some b) (ha : g.after = some a)
    (hr : (b s).result = Completion.normal)
    (hg1 : g1 = { g with assertions := g.assertions + (b s).assertions,
                         timeout := g.timeout + (b s).timeout,
                         trace := g.trace ++ [Event.invoke Target.before s] }) :
    ((g1.execute h t (b s).scope).2.2 = Completion.normal →
      g.iteration h t s = Gerbil.invoke h (g1.execute h t (b s).scope).1 Target.after (some a)
        (g1.execute h t (b s).scope).2.1) ∧
    (∀ v, (g1.execute h t (b s).scope).2.2 = Completion.throw v →
      g.iteration h t s = ((g1.execute h t (b s).scope).1, (g1.execute h t (b s).scope).2.1,
        Completion.throw v)) := by
  have f8 : (g1.execute h t (b s).scope).1.after = some a := by
    rw [(Gerbil.execute_facts h g1 t (b s).scope).2.2.2.2.2.2.2.1, hg1]; exact ha
  have hi : g.iteration h t s =
      (match g1.execute h t (b s).scope with
        | (g, scope, Completion.throw v) => (g, scope, Completion.throw v)
        | (g, scope, Completion.normal) => Gerbil.invoke h g Target.after g.after scope) := by
    unfold Gerbil.iteration
    rw [hb, Gerbil.invoke_some, hg1]
    simp only [hr]
  rw [hi]
  rcases he : Gerbil.execute h g1 t (b s).scope with ⟨g2, s2, c2⟩
  rw [he] at f8
  simp only at f8
  constructor
  · intro hn
    simp only at hn
    subst hn
    simp only [f8]
  · intro v hv
    simp only at hv
    subst hv
    rfl

/-- What one round of the loop does to the runner, read through `calls`,
`summaries` and the counters. The round ends with `after` unless `before`
throws or the host timer, called when the completion check holds, throws. -/
theorem Gerbil.iteration_facts (h : Host) (g : Gerbil) (t : TestRecord) (s : Scope)
    (b a : Callback) (hb : g.before = some b) (ha : g.after = some a) :
    (g.iteration h t s).1.count = g.count ∧
    (g.iteration h t s).1.queue = g.queue ∧
    (g.iteration h t s).1.setup = g.setup ∧
    (g.iteration h t s).1.before = g.before ∧
    (g.iteration h t s).1.after = g.after ∧
    (g.iteration h t s).1.cleanup = g.cleanup ∧
    (∀ v, (b s).result = Completion.throw v →
      (g.iteration h t s).2.2 = Completion.throw v ∧
      (g.iteration h t s).2.1 = (b s).scope ∧
      calls (g.iteration h t s).1.trace = calls g.trace ++ [(Target.before, s)] ∧
      summaries (g.iteration h t s).1.trace = summaries g.trace ∧
      (g.iteration h t s).1.success = g.success ∧
      (g.iteration h t s).1.failures = g.failures) ∧
    ((b s).result = Completion.normal →
      (g.iteration h t s).1.success =
        g.success + (if (t.fn (b s).scope).result.isNormal then 1 else 0) ∧
      (g.iteration h t s).1.failures =
        g.failures + (if (t.fn (b s).scope).result.isNormal then 0 else 1) ∧
      (g.success + g.failures + 1 ≠ g.count →
        summaries (g.iteration h t s).1.trace = summaries g.trace) ∧
      (g.success + g.failures + 1 = g.count →
        summaries (g.iteration h t s).1.trace ≠ []) ∧
      (g.success + g.failures + 1 ≠ g.count ∨
        h.setTimeout JSValue.undefined
          (g.timeout + (b s).timeout + (t.fn (b s).scope).timeout) = Completion.normal →
        (g.iteration h t s).2.2 = (a (t.fn (b s).scope).scope).result ∧
        (g.iteration h t s).2.1 = (a (t.fn (b s).scope).scope).scope ∧
        calls (g.iteration h t s).1.trace = calls g.trace ++
          [(Target.before, s), (Target.test t.name, (b s).scope),
            (Target.after, (t.fn (b s).scope).scope)]) ∧
      (g.success + g.failures + 1 = g.count → ∀ v,
        h.setTimeout JSValue.undefined
          (g.timeout + (b s).timeout + (t.fn (b s).scope).timeout) = Completion.throw v →
        (g.iteration h t s).2.2 = Completion.throw v ∧
        (g.iteration h t s).2.1 = (t.fn (b s).scope).scope ∧
        calls (g.iteration h t s).1.trace = calls g.trace ++
          [(Target.before, s), (Target.test t.name, (b s).scope)])) := by
  cases hr : (b s).result with
  | throw v =>
    rw [Gerbil.iteration_before_throws h g t s b v hb hr]
    simp [hb, ha, calls_append, summaries_append, calls, summaries, Event.isSummary]
  | normal =>
    obtain ⟨g1, hg1⟩ : ∃ g1 : Gerbil, g1 =
        { g with assertions := g.assertions + (b s).assertions,
                 timeout := g.timeout + (b s).timeout,
                 trace := g.trace ++ [Event.invoke Target.before s] } := ⟨_, rfl⟩
    obtain ⟨f1, f2, f3, f4, f5, f6, f7, f8, f9, f10, f11, f12⟩ :=
      Gerbil.execute_facts h g1 t (b s).scope
    obtain ⟨en, et⟩ := Gerbil.iteration_before_returns h g g1 t s b a hb ha hr hg1
    have hS : g1.success = g.success := by rw [hg1]
    have hF : g1.failures = g.failures := by rw [hg1]
    have hC : g1.count = g.count := by rw [hg1]
    have hT : g1.timeout = g.timeout + (b s).timeout := by rw [hg1]
    have hcalls : calls g1.trace = calls g.trace ++ [(Target.before, s)] := by
      rw [hg1]; simp [calls_append, calls]
    have hsum : summaries g1.trace = summaries g.trace := by
      rw [hg1]; simp [summaries_append, summaries, Event.isSummary]
    have hq : g1.queue = g.queue := by rw [hg1]
    have h1 : g1.setup = g.setup := by rw [hg1]
    have h2 : g1.before = g.before := by rw [hg1]
    have h3 : g1.after = g.after := by rw [hg1]
    have h4 : g1.cleanup = g.cleanup := by rw [hg1]
    rw [hS, hF, hC] at f11 f12
    rw [hT] at f12
    rw [hS] at f2
    rw [hF] at f3
    rw [hC] at f4
    rw [hq] at f5
    rw [h1] at f6
    rw [h2] at f7
    rw [h3] at f8
    rw [h4] at f9
    rw [hcalls] at f10
    rw [hsum] at f11
    have hnormal : (g1.execute h t (b s).scope).2.2 = Completion.normal →
        (g.iteration h t s).1.count = g.count ∧
        (g.iteration h t s).1.queue = g.queue ∧
        (g.iteration h t s).1.setup = g.setup ∧
        (g.iteration h t s).1.before = g.before ∧
        (g.iteration h t s).1.after = g.after ∧
        (g.iteration h t s).1.cleanup = g.cleanup ∧
        (g.iteration h t s).1.success =
          g.success + (if (t.fn (b s).scope).result.isNormal then 1 else 0) ∧
        (g.iteration h t s).1.failures =
          g.failures + (if (t.fn (b s).scope).result.isNormal then 0 else 1) ∧
        summaries (g.iteration h t s).1.trace = summaries (g1.execute h t (b s).scope).1.trace ∧
        (g.iteration h t s).2.2 = (a (t.fn (b s).scope).scope).result ∧
        (g.iteration h t s).2.1 = (a (t.fn (b s).scope).scope).scope ∧
        calls (g.iteration h t s).1.trace = calls g.trace ++
          [(Target.before, s), (Target.test t.name, (b s).scope),
            (Target.after, (t.fn (b s).scope).scope)] := by
      intro hn
      rw [en hn, Gerbil.invoke_some]
      simp only [f1, f2, f3, f4, f5, f6, f7, f8, f9, calls_append, summaries_append, f10,
        true_and]
      refine ⟨by simp [summaries, Event.isSummary], by simp [calls]⟩
    have hthrow : ∀ v, (g1.execute h t (b s).scope).2.2 = Completion.throw v →
        (g.iteration h t s).1.count = g.count ∧
        (g.iteration h t s).1.queue = g.queue ∧
        (g.iteration h t s).1.setup = g.setup ∧
        (g.iteration h t s).1.before = g.before ∧
        (g.iteration h t s).1.after = g.after ∧
        (g.iteration h t s).1.cleanup = g.cleanup ∧
        (g.iteration h t s).1.success =
          g.success + (if (t.fn (b s).scope).result.isNormal then 1 else 0) ∧
        (g.iteration h t s).1.failures =
          g.failures + (if (t.fn (b s).scope).result.isNormal then 0 else 1) ∧
        summaries (g.iteration h t s).1.trace = summaries (g1.execute h t (b s).scope).1.trace ∧
        (g.iteration h t s).2.2 = Completion.throw v ∧
        (g.iteration h t s).2.1 = (t.fn (b s).scope).scope ∧
        calls (g.iteration h t s).1.trace = calls g.trace ++
          [(Target.before, s), (Target.test t.name, (b s).scope)] := by
      intro v hv
      rw [et v hv]
      simp only [f1, f2, f3, f4, f5, f6, f7, f8, f9, f10, true_and, and_self]
      simp
    by_cases hc : g.success + g.failures + 1 = g.count
    · obtain ⟨p1, p2⟩ := f12 hc
      cases ht : h.setTimeout JSValue.undefined
          (g.timeout + (b s).timeout + (t.fn (b s).scope).timeout) with
      | normal =>
        rw [ht] at p2
        obtain ⟨q1, q2, q3, q4, q5, q6, q7, q8, q9, q10, q11, q12⟩ := hnormal p2
        refine ⟨q1, q2, q3, q4, q5, q6, (fun v hv => by cases hv), fun _ =>
          ⟨q7, q8, fun hne => absurd hc hne, (fun _ => by rw [q9]; exact p1),
            fun _ => ⟨q10, q11, q12⟩, (fun _ v hv => by cases hv)⟩⟩
      | throw v =>
        rw [ht] at p2
        obtain ⟨q1, q2, q3, q4, q5, q6, q7, q8, q9, q10, q11, q12⟩ := hthrow v p2
        refine ⟨q1, q2, q3, q4, q5, q6, (fun v hv => by cases hv), fun _ =>
          ⟨q7, q8, fun hne => absurd hc hne, (fun _ => by rw [q9]; exact p1),
            fun hor => ?_, fun _ w hw => ?_⟩⟩
        · rcases hor with hne | hn
          · exact absurd hc hne
          · cases hn
        · cases hw
          exact ⟨q10, q11, q12⟩
    · obtain ⟨p1, p2⟩ := f11 hc
      obtain ⟨q1, q2, q3, q4, q5, q6, q7, q8, q9, q10, q11, q12⟩ := hnormal p2
      exact ⟨q1, q2, q3, q4, q5, q6, (fun v hv => by cases hv), fun _ =>
        ⟨q7, q8, (fun _ => by rw [q9]; exact p1), fun he => absurd he hc,
          fun _ => ⟨q10, q11, q12⟩, fun he => absurd he hc⟩⟩

theorem records_entries (h : Host) (ts : List (String × Callback)) :
    ∀ i, (records h i ts).map TestRecord.entry = ts := by
  induction ts with
  | nil => intro i; rfl
  | cons e ts ih => intro i; simp [records, TestRecord.entry, ih]

/-- The rounds of a prefix of the queued tests in which no hook throws, when
the completion check cannot hold in them: fewer tests than `count` have been
executed after the last of them. -/
theorem Gerbil.drainList_quiet (h : Host) (b a : Callback) (pre rest : List TestRecord) :
    ∀ (g : Gerbil) (s : Scope), g.before = some b → g.after = some a →
      g.queue.pending = pre ++ rest →
      quiet b a s (pre.map TestRecord.entry) →
      g.success + g.failures + pre.length < g.count →
      ∃ g2 : Gerbil,
        Gerbil.drainList h (pre ++ rest) g s =
          Gerbil.drainList h rest g2 (scopeAfter b a s (pre.map TestRecord.entry)) ∧
        g2.before = some b ∧ g2.after = some a ∧ g2.setup = g.setup ∧ g2.cleanup = g.cleanup ∧
        g2.count = g.count ∧ g2.queue.pending = rest ∧
        calls g2.trace = calls g.trace ++ roundCalls b a s (pre.map TestRecord.entry) ∧
        g2.success = g.success + (verdicts b a s (pre.map TestRecord.entry)).count true ∧
        g2.failures = g.failures + (verdicts b a s (pre.map TestRecord.entry)).count false ∧
        summaries g2.trace = summaries g.trace := by
  induction pre with
  | nil =>
    intro g s hb ha hp _ _
    exact ⟨g, rfl, hb, ha, rfl, rfl, rfl, hp, by simp [roundCalls], by simp [verdicts],
      by simp [verdicts], rfl⟩
  | cons t pre ih =>
    intro g s hb ha hp hq hlt
    simp only [List.length_cons] at hlt
    obtain ⟨hq1, hq2, hq3⟩ := hq
    obtain ⟨g0, hg0⟩ : ∃ g0 : Gerbil, g0 = { g with queue := g.queue.pull.2 } := ⟨_, rfl⟩
    have hb0 : g0.before = some b := by rw [hg0]; exact hb
    have ha0 : g0.after = some a := by rw [hg0]; exact ha
    have hne : g0.success + g0.failures + 1 ≠ g0.count := by rw [hg0]; simp only; omega
    obtain ⟨i1, i2, i3, i4, i5, i6, -, i8⟩ := Gerbil.iteration_facts h g0 t s b a hb0 ha0
    obtain ⟨j4, j5, j6, -, j8, -⟩ := i8 hq1
    obtain ⟨j1, j2, j3⟩ := j8 (Or.inl hne)
    have j7 := j6 hne
    rcases hr : Gerbil.iteration h g0 t s with ⟨g1, s1, c1⟩
    rw [hr] at i1 i2 i3 i4 i5 i6 j1 j2 j3 j4 j5 j7
    simp only at i1 i2 i3 i4 i5 i6 j1 j2 j3 j4 j5 j7
    have hc1 : c1 = Completion.normal := by rw [j1]; exact hq2
    subst hc1
    have hp1 : g1.queue.pending = pre ++ rest := by
      rw [i2, hg0]
      simp only [Gerbil.Queue.pending_pull, hp, List.cons_append, List.tail_cons]
    have hs1 : s1 = roundScope b a s t.entry := j2
    have e1 : g1.success + g1.failures = g.success + g.failures + 1 := by
      rw [j4, j5, hg0]
      cases (t.fn (b s).scope).result.isNormal <;> first | (simp; done) | (simp; omega)
    obtain ⟨g2, k1, k2, k3, k4, k5, k6, k7, k8, k9, k10, k11⟩ :=
      ih g1 s1 (by rw [i4]; exact hb0) (by rw [i5]; exact ha0) hp1 (by rw [hs1]; exact hq3)
        (by rw [e1, i1, hg0]; simp only; omega)
    refine ⟨g2, ?_, k2, k3, ?_, ?_, ?_, k7, ?_, ?_, ?_, ?_⟩
    · rw [List.cons_append, Gerbil.drainList, ← hg0, hr]
      simp only
      rw [k1, hs1]
      rfl
    · rw [k4, i3, hg0]
    · rw [k5, i6, hg0]
    · rw [k6, i1, hg0]
    · rw [k8, j3, hg0, hs1]
      simp [roundCalls, TestRecord.entry, roundScope]
    · rw [k9, j4, hg0, hs1]
      simp only [List.map_cons, verdicts, TestRecord.entry, List.count_cons]
      cases (t.fn (b s).scope).result.isNormal <;> first | (simp; done) | (simp; omega)
    · rw [k10, j5, hg0, hs1]
      simp only [List.map_cons, verdicts, TestRecord.entry, List.count_cons]
      cases (t.fn (b s).scope).result.isNormal <;> first | (simp; done) | (simp; omega)
    · rw [k11, j7, hg0]

theorem Gerbil.Queue.pending_length_le {α : Type} (q : Gerbil.Queue α) :
    q.pending.length ≤ q.queue.length := by
  simp [Gerbil.Queue.pending]

/-- The loop of `consume` never runs out of its fuel: `consume` is the call
of `setup`, the rounds of the queued tests, and the call of `cleanup`. -/
theorem Gerbil.consume_eq (h : Host) (g : Gerbil) :
    g.consume h = some (
      match Gerbil.invoke h g Target.setup g.setup [] with
      | (g1, s1, Completion.throw v) => (g1, s1, Completion.throw v)
      | (g1, s1, Completion.normal) =>
        match Gerbil.drainList h g1.queue.pending g1 s1 with
        | (g2, s2, Completion.throw v) => (g2, s2, Completion.throw v)
        | (g2, s2, Completion.normal) => Gerbil.invoke h g2 Target.cleanup g2.cleanup s2) := by
  simp only [Gerbil.consume]
  rcases Gerbil.invoke h g Target.setup g.setup [] with ⟨g1, s1, c1⟩
  cases c1 with
  | throw v => rfl
  | normal =>
    simp only
    rw [Gerbil.drain_eq h g1.queue.pending _ g1 s1 rfl
      (Nat.lt_succ_of_le (Gerbil.Queue.pending_length_le g1.queue))]
    rcases Gerbil.drainList h g1.queue.pending g1 s1 with ⟨g2, s2, c2⟩
    cases c2 <;> rfl

/-! ## The runs of `scenario`, by the first hook that throws -/

/-- The run of `scenario` after `enqueue` and the call of `setup`. -/
theorem scenario_start (h : Host) (d : String) (tests : List (String × Callback)) :
    ∃ g1 : Gerbil,
      scenario h d tests = some (
        match (hookOf tests "setup" []).result with
        | Completion.throw v => (g1, (hookOf tests "setup" []).scope, Completion.throw v)
        | Completion.normal =>
          match Gerbil.drainList h (records h 0 (testsOf tests)) g1
            (hookOf tests "setup" []).scope with
          | (g2, s2, Completion.throw v) => (g2, s2, Completion.throw v)
          | (g2, s2, Completion.normal) => Gerbil.invoke h g2 Target.cleanup g2.cleanup s2) ∧
      g1.before = some (hookOf tests "before") ∧ g1.after = some (hookOf tests "after") ∧
      g1.cleanup = some (hookOf tests "cleanup") ∧
      g1.count = (testsOf tests).length ∧ g1.success = 0 ∧ g1.failures = 0 ∧
      g1.queue.pending = records h 0 (testsOf tests) ∧
      calls g1.trace = [(Target.setup, [])] ∧ summaries g1.trace = [] := by
  refine ⟨
    { success := 0, failures := 0, count := (testsOf tests).length,
      assertions := 0 + (hookOf tests "setup" []).assertions,
      timeout := 0 + (hookOf tests "setup" []).timeout,
      queue := { queue := records h 0 (testsOf tests), offset := 0 }, description := d,
      tests := testsOf tests,
      setup := some (hookOf tests "setup"), before := some (hookOf tests "before"),
      after := some (hookOf tests "after"), cleanup := some (hookOf tests "cleanup"),
      trace := [Event.info ("== Running " ++ d ++ " ==")] ++ [Event.invoke Target.setup []] },
    ?_, ?_⟩
  · simp only [scenario]
    rw [enqueue_create, Gerbil.consume_eq, Gerbil.invoke_some]
    cases (hookOf tests "setup" []).result with
    | throw v => rfl
    | normal => rfl
  · simp [Gerbil.Queue.pending, calls, summaries, Event.isSummary]


theorem verdicts_length (b a : Callback) (ts : List (String × Callback)) :
    ∀ s, (verdicts b a s ts).length = ts.length := by
  induction ts with
  | nil => intro s; rfl
  | cons e ts ih => intro s; simp [verdicts, ih]

theorem count_true_add_false (l : List Bool) :
    l.count true + l.count false = l.length := by
  induction l with
  | nil => rfl
  | cons x l ih => cases x <;> simp [List.count_cons] <;> omega

theorem records_split (h : Host) (ts pre post : List (String × Callback))
    (e : String × Callback) (hT : ts = pre ++ e :: post) :
    ∃ (rpre rpost : List TestRecord) (r : TestRecord), records h 0 ts = rpre ++ r :: rpost ∧
      rpre.map TestRecord.entry = pre ∧ r.entry = e ∧ rpost.map TestRecord.entry = post ∧
      rpre.length = pre.length ∧ rpost.length = post.length := by
  have hm := records_entries h ts 0
  rw [hT, List.map_eq_append_iff] at hm
  obtain ⟨rpre, rest, h1, h2, h3⟩ := hm
  rw [List.map_eq_cons_iff] at h3
  obtain ⟨r, rpost, h4, h5, h6⟩ := h3
  refine ⟨rpre, rpost, r, ?_, h2, h5, h6, ?_, ?_⟩
  · rw [← hT] at h1
    rw [h1, h4]
  · rw [← h2, List.length_map]
  · rw [← h6, List.length_map]

/-- The run of a mapping that holds no test, when `setup` returns: `setup`,
then `cleanup`, and `execute` is never called. -/
theorem scenario_empty (h : Host) (d : String) (tests : List (String × Callback))
    (hT : testsOf tests = [])
    (hs : (hookOf tests "setup" []).result = Completion.normal) :
    ∃ g : Gerbil,
      scenario h d tests = some (g,
        (hookOf tests "cleanup" (hookOf tests "setup" []).scope).scope,
        (hookOf tests "cleanup" (hookOf tests "setup" []).scope).result) ∧
      calls g.trace = [(Target.setup, []), (Target.cleanup, (hookOf tests "setup" []).scope)] ∧
      summaries g.trace = [] ∧
      g.count = 0 ∧ g.success = 0 ∧ g.failures = 0 ∧ g.queue.pending = [] := by
  obtain ⟨g1, e1, f1, f2, f3, f4, f5, f6, f7, f8, f9⟩ := scenario_start h d tests
  rw [hT] at e1 f4 f7
  rw [e1, hs]
  simp only [records, Gerbil.drainList, f3, Gerbil.invoke_some]
  refine ⟨_, rfl, ?_, ?_, ?_, f5, f6, ?_⟩
  · simp only [calls_append, f8]
    simp [calls]
  · simp only [summaries_append, f9]
    simp [summaries, Event.isSummary]
  · simp only [f4, List.length_nil]
  · simp only [Gerbil.Queue.pending_pull, f7, records, List.tail_nil]

/-- The run in which `setup` throws. -/
theorem scenario_setup_throws (h : Host) (d : String) (tests : List (String × Callback))
    (v : JSValue) (hs : (hookOf tests "setup" []).result = Completion.throw v) :
    ∃ g : Gerbil,
      scenario h d tests = some (g, (hookOf tests "setup" []).scope, Completion.throw v) ∧
      calls g.trace = [(Target.setup, [])] ∧
      summaries g.trace = [] ∧
      g.queue.pending.map TestRecord.entry = testsOf tests := by
  obtain ⟨g1, e1, f1, f2, f3, f4, f5, f6, f7, f8, f9⟩ := scenario_start h d tests
  rw [e1, hs]
  exact ⟨g1, rfl, f8, f9, by rw [f7, records_entries]⟩

/-- The run in which `before` throws after the rounds of `pre`. -/
theorem scenario_before_throws (h : Host) (d : String) (tests : List (String × Callback))
    (pre post : List (String × Callback)) (e : String × Callback) (v : JSValue)
    (hT : testsOf tests = pre ++ e :: post)
    (hs : (hookOf tests "setup" []).result = Completion.normal)
    (hq : quiet (hookOf tests "before") (hookOf tests "after")
      (hookOf tests "setup" []).scope pre)
    (hb : (hookOf tests "before" (scopeAfter (hookOf tests "before") (hookOf tests "after")
      (hookOf tests "setup" []).scope pre)).result = Completion.throw v) :
    ∃ g : Gerbil,
      scenario h d tests = some (g,
        (hookOf tests "before" (scopeAfter (hookOf tests "before") (hookOf tests "after")
          (hookOf tests "setup" []).scope pre)).scope, Completion.throw v) ∧
      calls g.trace = (Target.setup, []) ::
        roundCalls (hookOf tests "before") (hookOf tests "after")
          (hookOf tests "setup" []).scope pre ++
        [(Target.before, scopeAfter (hookOf tests "before") (hookOf tests "after")
          (hookOf tests "setup" []).scope pre)] ∧
      summaries g.trace = [] ∧
      g.queue.pending.map TestRecord.entry = post := by
  obtain ⟨g1, e1, f1, f2, f3, f4, f5, f6, f7, f8, f9⟩ := scenario_start h d tests
  obtain ⟨rpre, rpost, r, r1, r2, r3, r4, r5, r6⟩ := records_split h _ pre post e hT
  have hq2 := hq
  rw [← r2] at hq2
  obtain ⟨g2, k1, k2, k3, k4, k5, k6, k7, k8, k9, k10, k11⟩ :=
    Gerbil.drainList_quiet h _ _ rpre (r :: rpost) g1 _ f1 f2 (by rw [f7, r1]) hq2
      (by rw [f4, f5, f6, hT, r5]; simp)
  rw [r2] at k1 k8 k9 k10
  generalize hsk : scopeAfter (hookOf tests "before") (hookOf tests "after")
    (hookOf tests "setup" []).scope pre = sk at *
  obtain ⟨g0, hg0⟩ : ∃ g0 : Gerbil, g0 = { g2 with queue := g2.queue.pull.2 } := ⟨_, rfl⟩
  have hb0 : g0.before = some (hookOf tests "before") := by rw [hg0]; exact k2
  have ha0 : g0.after = some (hookOf tests "after") := by rw [hg0]; exact k3
  obtain ⟨i1, i2, i3, i4, i5, i6, i7, -⟩ := Gerbil.iteration_facts h g0 r sk _ _ hb0 ha0
  obtain ⟨j1, j2, j3, j4, j5, j6⟩ := i7 v hb
  rcases hr : Gerbil.iteration h g0 r sk with ⟨g3, s3, c3⟩
  rw [hr] at i1 i2 i3 i4 i5 i6 j1 j2 j3 j4 j5 j6
  simp only at i1 i2 i3 i4 i5 i6 j1 j2 j3 j4 j5 j6
  subst j1
  subst j2
  have hrun : scenario h d tests =
      some (g3, (hookOf tests "before" sk).scope, Completion.throw v) := by
    rw [e1, hs]
    simp only [r1, k1, Gerbil.drainList]
    rw [← hg0, hr]
  refine ⟨g3, hrun, ?_, ?_, ?_⟩
  · rw [j3, hg0]
    simp only [k8, f8, List.singleton_append, List.cons_append, List.nil_append]
  · rw [j4, hg0]
    simp only
    rw [k11, f9]
  · rw [i2, hg0]
    simp only [Gerbil.Queue.pending_pull, k7, List.tail_cons, r4]

/-- The run in which `after` throws in the round that follows the rounds of
`pre` and is not the last: tests are still queued then. -/
theorem scenario_after_throws (h : Host) (d : String) (tests : List (String × Callback))
    (pre post : List (String × Callback)) (e : String × Callback) (v : JSValue)
    (hT : testsOf tests = pre ++ e :: post)
    (hs : (hookOf tests "setup" []).result = Completion.normal)
    (hq : quiet (hookOf tests "before") (hookOf tests "after")
      (hookOf tests "setup" []).scope pre)
    (hb : (hookOf tests "before" (scopeAfter (hookOf tests "before") (hookOf tests "after")
      (hookOf tests "setup" []).scope pre)).result = Completion.normal)
    (ha : (hookOf tests "after" (e.2 (hookOf tests "before" (scopeAfter (hookOf tests "before")
      (hookOf tests "after") (hookOf tests "setup" []).scope pre)).scope).scope).result =
        Completion.throw v)
    (hpost : post ≠ []) :
    ∃ g : Gerbil,
      scenario h d tests = some (g,
        (hookOf tests "after" (e.2 (hookOf tests "before" (scopeAfter (hookOf tests "before")
          (hookOf tests "after") (hookOf tests "setup" []).scope pre)).scope).scope).scope,
        Completion.throw v) ∧
      calls g.trace = (Target.setup, []) ::
        roundCalls (hookOf tests "before") (hookOf tests "after")
          (hookOf tests "setup" []).scope pre ++
        [(Target.before, scopeAfter (hookOf tests "before") (hookOf tests "after")
            (hookOf tests "setup" []).scope pre),
          (Target.test e.1, (hookOf tests "before" (scopeAfter (hookOf tests "before")
            (hookOf tests "after") (hookOf tests "setup" []).scope pre)).scope),
          (Target.after, (e.2 (hookOf tests "before" (scopeAfter (hookOf tests "before")
            (hookOf tests "after") (hookOf tests "setup" []).scope pre)).scope).scope)] ∧
      summaries g.trace = [] ∧
      g.queue.pending.map TestRecord.entry = post := by
  obtain ⟨g1, e1, f1, f2, f3, f4, f5, f6, f7, f8, f9⟩ := scenario_start h d tests
  obtain ⟨rpre, rpost, r, r1, r2, r3, r4, r5, r6⟩ := records_split h _ pre post e hT
  have hq2 := hq
  rw [← r2] at hq2
  obtain ⟨g2, k1, k2, k3, k4, k5, k6, k7, k8, k9, k10, k11⟩ :=
    Gerbil.drainList_quiet h _ _ rpre (r :: rpost) g1 _ f1 f2 (by rw [f7, r1]) hq2
      (by rw [f4, f5, f6, hT, r5]; simp)
  rw [r2] at k1 k8 k9 k10
  generalize hsk : scopeAfter (hookOf tests "before") (hookOf tests "after")
    (hookOf tests "setup" []).scope pre = sk at *
  obtain ⟨g0, hg0⟩ : ∃ g0 : Gerbil, g0 = { g2 with queue := g2.queue.pull.2 } := ⟨_, rfl⟩
  have hb0 : g0.before = some (hookOf tests "before") := by rw [hg0]; exact k2
  have ha0 : g0.after = some (hookOf tests "after") := by rw [hg0]; exact k3
  have hlen : 0 < post.length := List.length_pos.mpr hpost
  have hcount := List.count_le_length true (verdicts (hookOf tests "before")
    (hookOf tests "after") (hookOf tests "setup" []).scope pre)
  have hcount2 := List.count_le_length false (verdicts (hookOf tests "before")
    (hookOf tests "after") (hookOf tests "setup" []).scope pre)
  have hsum := count_true_add_false (verdicts (hookOf tests "before")
    (hookOf tests "after") (hookOf tests "setup" []).scope pre)
  rw [verdicts_length] at hsum
  have hne : g0.success + g0.failures + 1 ≠ g0.count := by
    rw [hg0]
    simp only [k9, k10, k6, f4, f5, f6, hT, List.length_append, List.length_cons]
    omega
  obtain ⟨i1, i2, i3, i4, i5, i6, -, i8⟩ := Gerbil.iteration_facts h g0 r sk _ _ hb0 ha0
  obtain ⟨-, -, j6, -, j8, -⟩ := i8 hb
  obtain ⟨j1, j2, j3⟩ := j8 (Or.inl hne)
  have j7 := j6 hne
  have hfn : r.fn = e.2 := by rw [← r3]; rfl
  have hname : r.name = e.1 := by rw [← r3]; rfl
  rw [hfn] at j1 j2 j3
  rw [hname] at j3
  rcases hr : Gerbil.iteration h g0 r sk with ⟨g3, s3, c3⟩
  rw [hr] at i1 i2 i3 i4 i5 i6 j1 j2 j3 j7
  simp only at i1 i2 i3 i4 i5 i6 j1 j2 j3 j7
  rw [ha] at j1
  subst j1
  subst j2
  have hrun : scenario h d tests =
      some (g3, (hookOf tests "after" (e.2 (hookOf tests "before" sk).scope).scope).scope,
        Completion.throw v) := by
    rw [e1, hs]
    simp only [r1, k1, Gerbil.drainList]
    rw [← hg0, hr]
  refine ⟨g3, hrun, ?_, ?_, ?_⟩
  · rw [j3, hg0]
    simp only [k8, f8, List.singleton_append, List.cons_append, List.nil_append]
  · rw [j7, hg0]
    simp only
    rw [k11, f9]
  · rw [i2, hg0]
    simp only [Gerbil.Queue.pending_pull, k7, List.tail_cons, r4]

theorem quiet_or_first (b a : Callback) (ts : List (String × Callback)) :
    ∀ s, quiet b a s ts ∨ ∃ pre e post, ts = pre ++ e :: post ∧ quiet b a s pre ∧
      ((∃ v, (b (scopeAfter b a s pre)).result = Completion.throw v) ∨
        ((b (scopeAfter b a s pre)).result = Completion.normal ∧
          ∃ v, (a (e.2 (b (scopeAfter b a s pre)).scope).scope).result = Completion.throw v)) := by
  induction ts with
  | nil => intro s; exact Or.inl trivial
  | cons e ts ih =>
    intro s
    cases hb : (b s).result with
    | throw v => exact Or.inr ⟨[], e, ts, rfl, trivial, Or.inl ⟨v, hb⟩⟩
    | normal =>
      cases ha : (a (e.2 (b s).scope).scope).result with
      | throw v => exact Or.inr ⟨[], e, ts, rfl, trivial, Or.inr ⟨hb, v, ha⟩⟩
      | normal =>
        rcases ih (roundScope b a s e) with hq | ⟨pre, e2, post, h1, h2, h3⟩
        · exact Or.inl ⟨hb, ha, hq⟩
        · exact Or.inr ⟨e :: pre, e2, post, by rw [h1]; rfl, ⟨hb, ha, h2⟩, h3⟩

theorem roundCalls_quiet (b a : Callback) (ts : List (String × Callback)) :
    ∀ s, quiet b a s ts → ∀ c ∈ roundCalls b a s ts,
      (c.1 = Target.before → (b c.2).result = Completion.normal) ∧
      (c.1 = Target.after → (a c.2).result = Completion.normal) ∧
      c.1 ≠ Target.setup ∧ c.1 ≠ Target.cleanup := by
  induction ts with
  | nil => intro s _ c hc; simp [roundCalls] at hc
  | cons e ts ih =>
    intro s hq c hc
    obtain ⟨h1, h2, h3⟩ := hq
    simp only [roundCalls, List.mem_cons] at hc
    rcases hc with rfl | rfl | rfl | hc
    · simp [h1]
    · simp
    · simp [h2]
    · exact ih _ h3 c hc

theorem roundCalls_tests (b a : Callback) (ts : List (String × Callback)) :
    ∀ s, (roundCalls b a s ts).filterMap testName = ts.map Prod.fst := by
  induction ts with
  | nil => intro s; rfl
  | cons e ts ih => intro s; simp [roundCalls, testName, ih]

theorem roundCalls_befores (b a : Callback) (ts : List (String × Callback)) :
    ∀ s, (roundCalls b a s ts).countP (fun c => c.1 = Target.before) = ts.length := by
  induction ts with
  | nil => intro s; rfl
  | cons e ts ih => intro s; simp [roundCalls, List.countP_cons, ih]

theorem roundCalls_hooks (b a : Callback) (ts : List (String × Callback)) :
    ∀ s, (roundCalls b a s ts).countP (fun c => c.1 = Target.setup) = 0 ∧
      (roundCalls b a s ts).countP (fun c => c.1 = Target.cleanup) = 0 := by
  induction ts with
  | nil => intro s; exact ⟨rfl, rfl⟩
  | cons e ts ih => intro s; simp [roundCalls, List.countP_cons, ih]


theorem executed_eq (trace : List Event) : executed trace = (calls trace).filterMap testName := rfl

theorem take_pred_split (ts : List (String × Callback)) (k : Nat) (hk1 : 1 ≤ k)
    (hk : k ≤ ts.length) :
    ∃ e, ts = ts.take (k - 1) ++ e :: ts.drop k := by
  have hlt : k - 1 < ts.length := by omega
  refine ⟨ts[k - 1], ?_⟩
  have h1 := List.drop_eq_getElem_cons hlt
  have h2 : k - 1 + 1 = k := by omega
  rw [h2] at h1
  rw [← h1, List.take_append_drop]

/-! ## The assertion helpers -/

theorem JSNumber.eq_fin (a b : Nat) :
    JSNumber.eq (JSNumber.fin a) (JSNumber.fin b) = decide (a = b) := by
  simp [JSNumber.eq]

theorem itemsLoop_normal (h : Host) (first second : JSValue) (n : Nat) :
    ∀ i, Gerbil.itemsLoop h first second n i = Completion.normal ↔
      ∀ j, i ≤ j → j < i + n → looseEq h (itemOf first j) (itemOf second j) = true := by
  induction n with
  | zero =>
    intro i
    simp only [Gerbil.itemsLoop, true_iff]
    intro j h1 h2
    omega
  | succ n ih =>
    intro i
    unfold Gerbil.itemsLoop
    by_cases hi : looseEq h (itemOf first i) (itemOf second i) = true
    · simp only [hi, Bool.not_true, Bool.false_eq_true, if_false, ih]
      constructor
      · intro hall j h1 h2
        rcases Nat.eq_or_lt_of_le h1 with e | l
        · rw [← e]; exact hi
        · exact hall j l (by omega)
      · intro hall j h1 h2
        exact hall j (by omega) (by omega)
    · simp only [Bool.not_eq_true] at hi
      simp only [hi, Bool.not_false, if_true, false_iff, reduceCtorEq]
      intro hall
      have := hall i (Nat.le_refl i) (by omega)
      rw [hi] at this
      exact Bool.noConfusion this

theorem itemsLoop_mismatch (h : Host) (first second : JSValue) (n : Nat) :
    ∀ i k, i ≤ k → k < i + n →
      (∀ j, i ≤ j → j < k → looseEq h (itemOf first j) (itemOf second j) = true) →
      looseEq h (itemOf first k) (itemOf second k) = false →
      Gerbil.itemsLoop h first second n i = Completion.throw (JSValue.string (Gerbil.Error h
        ("Items not equal " ++ toText h (itemOf first k) ++ " != " ++ toText h (itemOf second k)))) := by
  induction n with
  | zero => intro i k h1 h2; omega
  | succ n ih =>
    intro i k h1 h2 hpre hk
    unfold Gerbil.itemsLoop
    rcases Nat.eq_or_lt_of_le h1 with e | l
    · subst e
      simp [hk]
    · have hi := hpre i (Nat.le_refl i) l
      simp only [hi, Bool.not_true, Bool.false_eq_true, if_false]
      exact ih (i + 1) k l (by omega) (fun j a b => hpre j (by omega) b) hk


theorem assert_equal_array_eq (h : Host) (g : Gerbil) (r1 r2 : Nat) (xs ys : List JSValue) :
    (g.assert_equal h (JSValue.array r1 xs) (JSValue.array r2 ys)).2 =
      if xs.length = ys.length then
        Gerbil.itemsLoop h (JSValue.array r1 xs) (JSValue.array r2 ys) xs.length 0
      else Completion.throw (JSValue.string (Gerbil.Error h "Different Lengths")) := by
  simp only [Gerbil.assert_equal, looseEq, typeof, constructorOf, lengthOf, Gerbil.loopBound,
    JSNumber.eq_fin]
  by_cases hl : xs.length = ys.length <;> simp [hl]

/-! ## Lemmas for the assertion helpers, the extraction and the queue states -/

theorem looseEq_undefined (h : Host) (v : JSValue) :
    looseEq h v JSValue.undefined = true ↔ v = JSValue.undefined ∨ v = JSValue.null := by
  cases v <;> simp [looseEq]

theorem append_ne_empty (a b : String) (hb : b ≠ "") : a ++ b ≠ "" := by
  intro he
  have hl := congrArg String.length he
  rw [String.length_append] at hl
  have hb0 : b.length ≠ 0 := by
    intro h0
    apply hb
    exact String.ext (List.length_eq_zero.mp h0)
  simp at hl
  omega

theorem records_names (h : Host) (ts : List (String × Callback)) :
    ∀ i, (records h i ts).map TestRecord.name = ts.map Prod.fst := by
  induction ts with
  | nil => intro i; rfl
  | cons e ts ih => intro i; simp [records, ih]

theorem lookup_testsOf (tests : List (String × Callback)) (k : String) (hk : k ∈ reserved) :
    (testsOf tests).lookup k = none := by
  simp only [testsOf, List.lookup_eq_none_iff, List.mem_filter, decide_eq_true_eq]
  intro p hp
  simp only [bne_iff_ne, ne_eq]
  intro e
  exact hp.2 (e ▸ hk)

namespace Gerbil.Queue

variable {α : Type}

theorem inv_of_reachable (q : Gerbil.Queue α) (hr : Reachable q) : Inv q := by
  induction hr with
  | new => exact inv_new
  | push q item _ ih => exact inv_push q item ih
  | pull q _ ih => exact inv_pull q ih

end Gerbil.Queue

/-! ## The lines of `log` and the place of the summary -/

theorem logLines_append (t1 t2 : List Event) :
    logLines (t1 ++ t2) = logLines t1 ++ logLines t2 := by
  simp [logLines, List.filterMap_append]

/-- What `execute` does to `assertions` and to the lines of `log`. -/
theorem Gerbil.execute_log (h : Host) (g : Gerbil) (t : TestRecord) (s : Scope) :
    (g.execute h t s).1.assertions = g.assertions + (t.fn s).assertions ∧
    logLines (g.execute h t s).1.trace = logLines g.trace ++
      (if (t.fn s).result.isNormal then [okLine t.name (g.assertions + (t.fn s).assertions)]
        else []) := by
  cases hr : (t.fn s).result with
  | normal =>
    by_cases hc : g.success + 1 + g.failures = g.count
    · simp [Gerbil.execute, Gerbil.invoke, hr, Gerbil.ok, Gerbil.summary, Gerbil.emit,
        hc, Completion.isNormal, logLines, okLine]
    · simp [Gerbil.execute, Gerbil.invoke, hr, Gerbil.ok, Gerbil.summary, Gerbil.emit,
        hc, Completion.isNormal, logLines, okLine]
  | throw v =>
    by_cases hc : g.success + (g.failures + 1) = g.count
    · simp [Gerbil.execute, Gerbil.invoke, hr, Gerbil.fail, Gerbil.summary, Gerbil.emit,
        hc, Completion.isNormal, logLines, okLine]
    · simp [Gerbil.execute, Gerbil.invoke, hr, Gerbil.fail, Gerbil.summary, Gerbil.emit,
        hc, Completion.isNormal, logLines, okLine]

/-- What one round does to `assertions` and to the lines of `log`. -/
theorem Gerbil.iteration_log (h : Host) (g : Gerbil) (t : TestRecord) (s : Scope)
    (b a : Callback) (hb : g.before = some b) (ha : g.after = some a) :
    (∀ v, (b s).result = Completion.throw v →
      logLines (g.iteration h t s).1.trace = logLines g.trace) ∧
    ((b s).result = Completion.normal →
      logLines (g.iteration h t s).1.trace = logLines g.trace ++
        (if (t.fn (b s).scope).result.isNormal then
          [okLine t.name (g.assertions + (b s).assertions + (t.fn (b s).scope).assertions)]
          else []) ∧
      (g.success + g.failures + 1 ≠ g.count →
        (g.iteration h t s).1.assertions = g.assertions + (b s).assertions +
          (t.fn (b s).scope).assertions + (a (t.fn (b s).scope).scope).assertions)) := by
  cases hr : (b s).result with
  | throw v =>
    rw [Gerbil.iteration_before_throws h g t s b v hb hr]
    simp [logLines]
  | normal =>
    obtain ⟨g1, hg1⟩ : ∃ g1 : Gerbil, g1 =
        { g with assertions := g.assertions + (b s).assertions,
                 timeout := g.timeout + (b s).timeout,
                 trace := g.trace ++ [Event.invoke Target.before s] } := ⟨_, rfl⟩
    obtain ⟨f1, -, -, -, -, -, -, -, -, -, f11, -⟩ := Gerbil.execute_facts h g1 t (b s).scope
    obtain ⟨l1, l2⟩ := Gerbil.execute_log h g1 t (b s).scope
    obtain ⟨en, et⟩ := Gerbil.iteration_before_returns h g g1 t s b a hb ha hr hg1
    have hA : g1.assertions = g.assertions + (b s).assertions := by rw [hg1]
    have hL : logLines g1.trace = logLines g.trace := by
      rw [hg1]; simp [logLines_append, logLines]
    have hS : g1.success + g1.failures + 1 = g.success + g.failures + 1 := by rw [hg1]
    have hC : g1.count = g.count := by rw [hg1]
    rw [hA] at l1 l2
    rw [hL] at l2
    rw [hS, hC] at f11
    simp only [reduceCtorEq, false_implies, implies_true, forall_const, true_and]
    constructor
    · cases hx : (g1.execute h t (b s).scope).2.2 with
      | normal =>
        rw [en hx, Gerbil.invoke_some]
        simp only [logLines_append, l2]
        simp [logLines]
      | throw v =>
        rw [et v hx]
        exact l2
    · intro hne
      rw [en (f11 hne).2, Gerbil.invoke_some]
      simp only [l1, f1]

theorem Gerbil.invoke_log (h : Host) (g : Gerbil) (t : Target) (f : Option Callback) (s : Scope) :
    logLines (Gerbil.invoke h g t f s).1.trace = logLines g.trace := by
  cases f with
  | none => rfl
  | some f => simp [Gerbil.invoke, logLines]

/-- The lines of `log` of the rounds of the queued tests, when the completion
check cannot hold before the last of them. -/
theorem Gerbil.drainList_log (h : Host) (b a : Callback) (ts : List TestRecord) :
    ∀ (g : Gerbil) (s : Scope), g.before = some b → g.after = some a →
      g.success + g.failures + ts.length ≤ g.count →
      logLines (Gerbil.drainList h ts g s).1.trace = logLines g.trace ++
        (okReports b a g.assertions s (ts.map TestRecord.entry)).map
          (fun r => okLine r.1 r.2) := by
  induction ts with
  | nil =>
    intro g s _ _ _
    simp [Gerbil.drainList, okReports]
  | cons t ts ih =>
    intro g s hb ha hle
    simp only [List.length_cons] at hle
    obtain ⟨g0, hg0⟩ : ∃ g0 : Gerbil, g0 = { g with queue := g.queue.pull.2 } := ⟨_, rfl⟩
    have hb0 : g0.before = some b := by rw [hg0]; exact hb
    have ha0 : g0.after = some a := by rw [hg0]; exact ha
    have hA : g0.assertions = g.assertions := by rw [hg0]
    have hT : g0.trace = g.trace := by rw [hg0]
    have hS0 : g0.success = g.success := by rw [hg0]
    have hF0 : g0.failures = g.failures := by rw [hg0]
    have hC0 : g0.count = g.count := by rw [hg0]
    obtain ⟨i1, -, -, i4, i5, -, i7, i8⟩ := Gerbil.iteration_facts h g0 t s b a hb0 ha0
    obtain ⟨m1, m2⟩ := Gerbil.iteration_log h g0 t s b a hb0 ha0
    rw [Gerbil.drainList, ← hg0]
    rcases hr : Gerbil.iteration h g0 t s with ⟨g1, s1, c1⟩
    rw [hr] at i1 i4 i5 i7 i8 m1 m2
    simp only at i1 i4 i5 i7 i8 m1 m2
    cases hbr : (b s).result with
    | throw v =>
      obtain ⟨j1, -⟩ := i7 v hbr
      subst j1
      simp only [List.map_cons, okReports, TestRecord.entry, hbr, List.map_nil,
        List.append_nil]
      rw [m1 v hbr, hT]
    | normal =>
      obtain ⟨j4, j5, -, -, j8, -⟩ := i8 hbr
      obtain ⟨n2, n1⟩ := m2 hbr
      by_cases hc : g0.success + g0.failures + 1 = g0.count
      · have hts : ts = [] := List.length_eq_zero.mp (by rw [hS0, hF0, hC0] at hc; omega)
        subst hts
        have hR : (okReports b a g.assertions s ([t].map TestRecord.entry)).map
            (fun r => okLine r.1 r.2) =
            (if (t.fn (b s).scope).result.isNormal then
              [okLine t.name (g.assertions + (b s).assertions + (t.fn (b s).scope).assertions)]
              else []) := by
          simp only [List.map_cons, List.map_nil, okReports, TestRecord.entry, hbr]
          cases (a (t.fn (b s).scope).scope).result <;> split <;> simp [okReports]
        rw [hR]
        cases c1 with
        | throw v =>
          simp only
          rw [n2, hT, hA]
        | normal =>
          simp only [Gerbil.drainList]
          rw [n2, hT, hA]
      · obtain ⟨j1, j2, -⟩ := j8 (Or.inl hc)
        have n3 := n1 hc
        have e1 : g1.success + g1.failures = g.success + g.failures + 1 := by
          rw [j4, j5, hS0, hF0]
          cases (t.fn (b s).scope).result.isNormal <;> first | (simp; done) | (simp; omega)
        cases har : (a (t.fn (b s).scope).scope).result with
        | throw v =>
          rw [har] at j1
          subst j1
          simp only [List.map_cons, okReports, TestRecord.entry, hbr, har, List.append_nil]
          rw [n2, hT, hA]
          split <;> simp
        | normal =>
          rw [har] at j1
          subst j1
          simp only [List.map_cons, okReports, TestRecord.entry, hbr, har, List.map_append]
          rw [ih g1 s1 (by rw [i4]; exact hb0) (by rw [i5]; exact ha0)
            (by rw [e1, i1, hC0]; omega), n3, n2, hT, hA, j2]
          simp only [roundScope, List.append_assoc]
          split <;> simp

theorem okReports_ge (b a : Callback) (ts : List (String × Callback)) :
    ∀ (n : Nat) (s : Scope), ∀ r ∈ okReports b a n s ts, n ≤ r.2 := by
  induction ts with
  | nil => intro n s r hr; simp [okReports] at hr
  | cons e ts ih =>
    intro n s r hr
    simp only [okReports] at hr
    cases hbr : (b s).result with
    | throw v => simp [hbr] at hr
    | normal =>
      simp only [hbr, List.mem_append] at hr
      rcases hr with hr | hr
      · split at hr
        · simp only [List.mem_singleton] at hr
          subst hr
          simp only
          omega
        · simp at hr
      · cases har : (a (e.2 (b s).scope).scope).result with
        | throw v => simp [har] at hr
        | normal =>
          simp only [har] at hr
          have := ih _ _ r hr
          omega

theorem okReports_sorted (b a : Callback) (ts : List (String × Callback)) :
    ∀ (n : Nat) (s : Scope), ((okReports b a n s ts).map Prod.snd).Pairwise (· ≤ ·) := by
  induction ts with
  | nil => intro n s; simp [okReports]
  | cons e ts ih =>
    intro n s
    simp only [okReports]
    cases hbr : (b s).result with
    | throw v => simp
    | normal =>
      simp only [List.map_append, List.pairwise_append]
      refine ⟨by split <;> simp, ?_, ?_⟩
      · cases har : (a (e.2 (b s).scope).scope).result with
        | throw v => simp
        | normal => exact ih _ _
      · intro x hx y hy
        cases har : (a (e.2 (b s).scope).scope).result with
        | throw v => simp [har] at hy
        | normal =>
          simp only [har, List.mem_map] at hy
          obtain ⟨r, hr, rfl⟩ := hy
          have hge := okReports_ge b a ts _ _ r hr
          split at hx
          · simp only [List.map_cons, List.map_nil, List.mem_singleton] at hx
            subst hx
            omega
          · simp at hx

/-- The run of `scenario` after `enqueue` and the call of `setup`, with
`assertions` and the lines of `log` then. -/
theorem scenario_start_log (h : Host) (d : String) (tests : List (String × Callback)) :
    ∃ g1 : Gerbil,
      scenario h d tests = some (
        match (hookOf tests "setup" []).result with
        | Completion.throw v => (g1, (hookOf tests "setup" []).scope, Completion.throw v)
        | Completion.normal =>
          match Gerbil.drainList h (records h 0 (testsOf tests)) g1
            (hookOf tests "setup" []).scope with
          | (g2, s2, Completion.throw v) => (g2, s2, Completion.throw v)
          | (g2, s2, Completion.normal) => Gerbil.invoke h g2 Target.cleanup g2.cleanup s2) ∧
      g1.before = some (hookOf tests "before") ∧ g1.after = some (hookOf tests "after") ∧
      g1.assertions = (hookOf tests "setup" []).assertions ∧
      logLines g1.trace = [] ∧
      g1.success + g1.failures + (records h 0 (testsOf tests)).length ≤ g1.count := by
  refine ⟨
    { success := 0, failures := 0, count := (testsOf tests).length,
      assertions := 0 + (hookOf tests "setup" []).assertions,
      timeout := 0 + (hookOf tests "setup" []).timeout,
      queue := { queue := records h 0 (testsOf tests), offset := 0 }, description := d,
      tests := testsOf tests,
      setup := some (hookOf tests "setup"), before := some (hookOf tests "before"),
      after := some (hookOf tests "after"), cleanup := some (hookOf tests "cleanup"),
      trace := [Event.info ("== Running " ++ d ++ " ==")] ++ [Event.invoke Target.setup []] },
    ?_, ?_⟩
  · simp only [scenario]
    rw [enqueue_create, Gerbil.consume_eq, Gerbil.invoke_some]
    cases (hookOf tests "setup" []).result with
    | throw v => rfl
    | normal => rfl
  · have hl : (records h 0 (testsOf tests)).length = (testsOf tests).length := by
      rw [← List.length_map (records h 0 (testsOf tests)) TestRecord.entry, records_entries]
    simp [logLines, hl]


/-- The trace of `execute` when the completion check holds after the test:
the summary is emitted at once, and the host timer is then called with
`undefined` as its handler. -/
theorem Gerbil.execute_last (h : Host) (g : Gerbil) (t : TestRecord) (s : Scope)
    (hc : g.success + g.failures + 1 = g.count) :
    ∃ verdict : Event, verdict.isSummary = false ∧ calls [verdict] = [] ∧
      (g.execute h t s).1.trace = g.trace ++ [Event.invoke (Target.test t.name) s, verdict,
        Event.warn (summaryLine (g.execute h t s).1.success (g.execute h t s).1.failures
          (g.execute h t s).1.count),
        Event.info "", Event.setTimeout JSValue.undefined (g.timeout + (t.fn s).timeout)] := by
  cases hr : (t.fn s).result with
  | normal =>
    have hc2 : g.success + 1 + g.failures = g.count := by omega
    refine ⟨Event.log ("   * " ++ t.name ++ " (" ++
      toString (g.assertions + (t.fn s).assertions) ++ " assertions)"), rfl, rfl, ?_⟩
    simp [Gerbil.execute, Gerbil.invoke, hr, Gerbil.ok, Gerbil.summary, Gerbil.emit, hc2,
      summaryLine]
  | throw v =>
    have hc2 : g.success + (g.failures + 1) = g.count := by omega
    refine ⟨Event.error ("   x " ++ (t.name ++ " (" ++ toText h v ++ ")")), rfl, rfl, ?_⟩
    simp [Gerbil.execute, Gerbil.invoke, hr, Gerbil.fail, Gerbil.summary, Gerbil.emit, hc2,
      summaryLine]

/-- The trace of the round in which the completion check holds: the summary
comes right after the verdict of the test, and the round goes on to `after`
only when the host timer returns. -/
theorem Gerbil.iteration_last (h : Host) (g : Gerbil) (t : TestRecord) (s : Scope)
    (b a : Callback) (hb : g.before = some b) (ha : g.after = some a)
    (hbn : (b s).result = Completion.normal)
    (hc : g.success + g.failures + 1 = g.count) :
    ∃ verdict : Event, verdict.isSummary = false ∧ calls [verdict] = [] ∧
      (h.setTimeout JSValue.undefined
          (g.timeout + (b s).timeout + (t.fn (b s).scope).timeout) = Completion.normal →
        (g.iteration h t s).1.trace = g.trace ++ [Event.invoke Target.before s,
          Event.invoke (Target.test t.name) (b s).scope, verdict,
          Event.warn (summaryLine (g.iteration h t s).1.success (g.iteration h t s).1.failures
            (g.iteration h t s).1.count),
          Event.info "",
          Event.setTimeout JSValue.undefined
            (g.timeout + (b s).timeout + (t.fn (b s).scope).timeout),
          Event.invoke Target.after (t.fn (b s).scope).scope]) ∧
      (∀ v, h.setTimeout JSValue.undefined
          (g.timeout + (b s).timeout + (t.fn (b s).scope).timeout) = Completion.throw v →
        (g.iteration h t s).1.trace = g.trace ++ [Event.invoke Target.before s,
          Event.invoke (Target.test t.name) (b s).scope, verdict,
          Event.warn (summaryLine (g.iteration h t s).1.success (g.iteration h t s).1.failures
            (g.iteration h t s).1.count),
          Event.info "",
          Event.setTimeout JSValue.undefined
            (g.timeout + (b s).timeout + (t.fn (b s).scope).timeout)]) := by
  obtain ⟨g1, hg1⟩ : ∃ g1 : Gerbil, g1 =
      { g with assertions := g.assertions + (b s).assertions,
               timeout := g.timeout + (b s).timeout,
               trace := g.trace ++ [Event.invoke Target.before s] } := ⟨_, rfl⟩
  have hc1 : g1.success + g1.failures + 1 = g1.count := by rw [hg1]; exact hc
  have hT : g1.timeout = g.timeout + (b s).timeout := by rw [hg1]
  have hR : g1.trace = g.trace ++ [Event.invoke Target.before s] := by rw [hg1]
  obtain ⟨f1, -, -, -, -, -, -, -, -, -, -, f12⟩ := Gerbil.execute_facts h g1 t (b s).scope
  obtain ⟨-, p2⟩ := f12 hc1
  obtain ⟨verdict, v1, v2, v3⟩ := Gerbil.execute_last h g1 t (b s).scope hc1
  obtain ⟨en, et⟩ := Gerbil.iteration_before_returns h g g1 t s b a hb ha hbn hg1
  rw [hT] at p2 v3
  rw [hR] at v3
  refine ⟨verdict, v1, v2, ?_, ?_⟩
  · intro ht
    rw [ht] at p2
    rw [en p2, Gerbil.invoke_some]
    simp only [v3, f1]
    simp
  · intro v ht
    rw [ht] at p2
    rw [et v p2]
    simp only [v3]
    simp

theorem scopeAfter_append (b a : Callback) (pre rest : List (String × Callback)) :
    ∀ s, scopeAfter b a s (pre ++ rest) = scopeAfter b a (scopeAfter b a s pre) rest := by
  induction pre with
  | nil => intro s; rfl
  | cons e pre ih => intro s; exact ih _

theorem quiet_append (b a : Callback) (pre rest : List (String × Callback)) :
    ∀ s, quiet b a s (pre ++ rest) ↔
      quiet b a s pre ∧ quiet b a (scopeAfter b a s pre) rest := by
  induction pre with
  | nil => intro s; simp [quiet, scopeAfter]
  | cons e pre ih =>
    intro s
    have := ih (roundScope b a s e)
    simp only [List.cons_append, quiet, scopeAfter, and_assoc]
    exact and_congr_right (fun _ => and_congr_right (fun _ => this))

theorem verdicts_append (b a : Callback) (pre rest : List (String × Callback)) :
    ∀ s, verdicts b a s (pre ++ rest) =
      verdicts b a s pre ++ verdicts b a (scopeAfter b a s pre) rest := by
  induction pre with
  | nil => intro s; rfl
  | cons e pre ih => intro s; simp [verdicts, scopeAfter, ih]

/-- The run in which no hook throws before the last test is executed: the
summary is emitted inside `execute` of the last test and the host timer is
called; the run ends there when the timer throws, and else goes on to the last
`after` and to `cleanup`. -/
theorem scenario_last_round (h : Host) (d : String) (tests : List (String × Callback))
    (pre : List (String × Callback)) (e : String × Callback)
    (b a cl : Callback) (s0 sk : Scope) (S F : Nat)
    (hbd : b = hookOf tests "before") (had : a = hookOf tests "after")
    (hcd : cl = hookOf tests "cleanup") (hs0 : s0 = (hookOf tests "setup" []).scope)
    (hsk : sk = scopeAfter b a s0 pre)
    (hS : S = (verdicts b a s0 (testsOf tests)).count true)
    (hF : F = (verdicts b a s0 (testsOf tests)).count false)
    (hT : testsOf tests = pre ++ [e])
    (hs : (hookOf tests "setup" []).result = Completion.normal)
    (hq : quiet b a s0 pre)
    (hb : (b sk).result = Completion.normal) :
    ∃ (t1 : List Event) (delay : Nat),
      calls t1 = (Target.setup, []) :: roundCalls b a s0 pre ++
        [(Target.before, sk), (Target.test e.1, (b sk).scope)] ∧
      summaries t1 = [] ∧
      (∀ v, h.setTimeout JSValue.undefined delay = Completion.throw v →
        ∃ g : Gerbil, scenario h d tests = some (g, (e.2 (b sk).scope).scope, Completion.throw v) ∧
          g.trace = t1 ++ [Event.warn (summaryLine S F (testsOf tests).length), Event.info "",
            Event.setTimeout JSValue.undefined delay] ∧
          g.count = (testsOf tests).length ∧ g.success = S ∧ g.failures = F ∧
          g.queue.pending = []) ∧
      (h.setTimeout JSValue.undefined delay = Completion.normal →
        (∀ v, (a (e.2 (b sk).scope).scope).result = Completion.throw v →
          ∃ g : Gerbil, scenario h d tests =
              some (g, (a (e.2 (b sk).scope).scope).scope, Completion.throw v) ∧
            g.trace = t1 ++ [Event.warn (summaryLine S F (testsOf tests).length), Event.info "",
              Event.setTimeout JSValue.undefined delay,
              Event.invoke Target.after (e.2 (b sk).scope).scope] ∧
            g.count = (testsOf tests).length ∧ g.success = S ∧ g.failures = F ∧
            g.queue.pending = []) ∧
        ((a (e.2 (b sk).scope).scope).result = Completion.normal →
          ∃ g : Gerbil, scenario h d tests =
              some (g, (cl (a (e.2 (b sk).scope).scope).scope).scope,
                (cl (a (e.2 (b sk).scope).scope).scope).result) ∧
            g.trace = t1 ++ [Event.warn (summaryLine S F (testsOf tests).length), Event.info "",
              Event.setTimeout JSValue.undefined delay,
              Event.invoke Target.after (e.2 (b sk).scope).scope,
              Event.invoke Target.cleanup (a (e.2 (b sk).scope).scope).scope] ∧
            g.count = (testsOf tests).length ∧ g.success = S ∧ g.failures = F ∧
            g.queue.pending = [])) := by
  subst hbd had hcd hs0
  obtain ⟨g1, e1, f1, f2, f3, f4, f5, f6, f7, f8, f9⟩ := scenario_start h d tests
  obtain ⟨rpre, rpost, r, r1, r2, r3, r4, r5, r6⟩ := records_split h _ pre [] e hT
  have hrpost : rpost = [] := List.length_eq_zero.mp (by rw [r6]; rfl)
  subst hrpost
  have hq2 := hq
  rw [← r2] at hq2
  obtain ⟨g2, k1, k2, k3, k4, k5, k6, k7, k8, k9, k10, k11⟩ :=
    Gerbil.drainList_quiet h _ _ rpre [r] g1 _ f1 f2 (by rw [f7, r1]) hq2
      (by rw [f4, f5, f6, hT, r5]; simp)
  rw [r2] at k1 k8 k9 k10
  rw [hT, verdicts_append] at hS hF
  rw [← hsk] at k1 hS hF
  obtain ⟨g0, hg0⟩ : ∃ g0 : Gerbil, g0 = { g2 with queue := g2.queue.pull.2 } := ⟨_, rfl⟩
  have hb0 : g0.before = some (hookOf tests "before") := by rw [hg0]; exact k2
  have ha0 : g0.after = some (hookOf tests "after") := by rw [hg0]; exact k3
  have hfn : r.fn = e.2 := by rw [← r3]; rfl
  have hname : r.name = e.1 := by rw [← r3]; rfl
  have hsum := count_true_add_false (verdicts (hookOf tests "before")
    (hookOf tests "after") (hookOf tests "setup" []).scope pre)
  rw [verdicts_length] at hsum
  have hc0 : g0.success + g0.failures + 1 = g0.count := by
    rw [hg0]
    simp only [k9, k10, k6, f4, f5, f6, hT, List.length_append, List.length_singleton]
    omega
  obtain ⟨i1, i2, i3, i4, i5, i6, -, i8⟩ := Gerbil.iteration_facts h g0 r sk _ _ hb0 ha0
  obtain ⟨j4, j5, -, -, j8, j9⟩ := i8 hb
  obtain ⟨verdict, v1, v2, v3, v4⟩ := Gerbil.iteration_last h g0 r sk _ _ hb0 ha0 hb hc0
  rw [hfn] at j4 j5 j8 j9 v3 v4
  rw [hname] at j8 j9 v3 v4
  have hg2 : g0.trace = g2.trace := by rw [hg0]
  have hcnt : g0.count = (testsOf tests).length := by rw [hg0]; simp only; rw [k6, f4]
  have hS2 : g0.success + (if (e.2 (hookOf tests "before" sk).scope).result.isNormal then 1
      else 0) = S := by
    rw [hS, hg0]
    simp only [k9, f5, verdicts, List.count_append, List.count_cons, List.count_nil]
    cases (e.2 (hookOf tests "before" sk).scope).result.isNormal <;> simp
  have hF2 : g0.failures + (if (e.2 (hookOf tests "before" sk).scope).result.isNormal then 0
      else 1) = F := by
    rw [hF, hg0]
    simp only [k10, f6, verdicts, List.count_append, List.count_cons, List.count_nil]
    cases (e.2 (hookOf tests "before" sk).scope).result.isNormal <;> simp
  have hpend : g0.queue.pending = [] := by
    rw [hg0]
    simp only [Gerbil.Queue.pending_pull, k7, List.tail_cons]
  have hcl : g0.cleanup = some (hookOf tests "cleanup") := by
    rw [hg0]
    simp only
    rw [k5, f3]
  refine ⟨g2.trace ++ [Event.invoke Target.before sk,
      Event.invoke (Target.test e.1) (hookOf tests "before" sk).scope, verdict],
    g0.timeout + (hookOf tests "before" sk).timeout +
      (e.2 (hookOf tests "before" sk).scope).timeout, ?_, ?_, ?_, ?_⟩
  · have hv : calls [Event.invoke Target.before sk,
        Event.invoke (Target.test e.1) (hookOf tests "before" sk).scope, verdict] =
        [(Target.before, sk), (Target.test e.1, (hookOf tests "before" sk).scope)] := by
      have : [Event.invoke Target.before sk,
          Event.invoke (Target.test e.1) (hookOf tests "before" sk).scope, verdict] =
          [Event.invoke Target.before sk,
            Event.invoke (Target.test e.1) (hookOf tests "before" sk).scope] ++ [verdict] := rfl
      rw [this, calls_append, v2]
      rfl
    rw [calls_append, k8, f8, hv]
    simp
  · rw [summaries_append, k11, f9]
    have q1 : Event.isSummary (Event.invoke Target.before sk) = false := rfl
    have q2 : Event.isSummary
        (Event.invoke (Target.test e.1) (hookOf tests "before" sk).scope) = false := rfl
    simp only [summaries, List.filter_cons, q1, q2, v1, List.filter_nil,
      Bool.false_eq_true, if_false, List.append_nil]
  · intro v ht
    obtain ⟨j1, j2, -⟩ := j9 hc0 v ht
    have v5 := v4 v ht
    rcases hr : Gerbil.iteration h g0 r sk with ⟨g3, s3, c3⟩
    rw [hr] at i1 i2 i3 i4 i5 i6 j1 j2 j4 j5 v5
    simp only at i1 i2 i3 i4 i5 i6 j1 j2 j4 j5 v5
    subst j1
    subst j2
    refine ⟨g3, ?_, ?_, ?_, ?_, ?_, ?_⟩
    · rw [e1, hs]
      simp only [r1, k1, Gerbil.drainList]
      rw [← hg0, hr]
    · rw [v5, j4, j5, i1, hS2, hF2, hcnt, hg2]
      simp
    · rw [i1, hcnt]
    · rw [j4, hS2]
    · rw [j5, hF2]
    · rw [i2, hpend]
  · intro ht
    obtain ⟨j1, j2, -⟩ := j8 (Or.inr ht)
    have v5 := v3 ht
    rcases hr : Gerbil.iteration h g0 r sk with ⟨g3, s3, c3⟩
    rw [hr] at i1 i2 i3 i4 i5 i6 j1 j2 j4 j5 v5
    simp only at i1 i2 i3 i4 i5 i6 j1 j2 j4 j5 v5
    subst j2
    constructor
    · intro v hav
      rw [hav] at j1
      subst j1
      refine ⟨g3, ?_, ?_, ?_, ?_, ?_, ?_⟩
      · rw [e1, hs]
        simp only [r1, k1, Gerbil.drainList]
        rw [← hg0, hr]
      · rw [v5, j4, j5, i1, hS2, hF2, hcnt, hg2]
        simp
      · rw [i1, hcnt]
      · rw [j4, hS2]
      · rw [j5, hF2]
      · rw [i2, hpend]
    · intro han
      rw [han] at j1
      subst j1
      have hcl3 : g3.cleanup = some (hookOf tests "cleanup") := by rw [i6, hcl]
      have hrun : scenario h d tests = some (Gerbil.invoke h { g3 with queue := g3.queue.pull.2 }
          Target.cleanup (some (hookOf tests "cleanup"))
          (hookOf tests "after" (e.2 (hookOf tests "before" sk).scope).scope).scope) := by
        rw [e1, hs]
        simp only [r1, k1, Gerbil.drainList]
        rw [← hg0, hr]
        simp only [hcl3]
      rw [Gerbil.invoke_some] at hrun
      refine ⟨_, hrun, ?_, ?_, ?_, ?_, ?_⟩
      · simp only
        rw [v5, j4, j5, i1, hS2, hF2, hcnt, hg2]
        simp
      · simp only
        rw [i1, hcnt]
      · simp only
        rw [j4, hS2]
      · simp only
        rw [j5, hF2]
      · simp only [Gerbil.Queue.pending_pull]
        rw [i2, hpend]
        rfl

theorem roundCalls_append (b a : Callback) (pre rest : List (String × Callback)) :
    ∀ s, roundCalls b a s (pre ++ rest) =
      roundCalls b a s pre ++ roundCalls b a (scopeAfter b a s pre) rest := by
  induction pre with
  | nil => intro s; rfl
  | cons e pre ih => intro s; simp [roundCalls, scopeAfter, ih]

theorem roundCalls_afters (b a : Callback) (ts : List (String × Callback)) :
    ∀ s, (roundCalls b a s ts).countP (fun c => c.1 = Target.after) = ts.length := by
  induction ts with
  | nil => intro s; rfl
  | cons e ts ih => intro s; simp [roundCalls, List.countP_cons, ih]

/-- In a run whose `setup` returned, every hook called in rounds in which
no hook throws has returned. -/
theorem prefix_calls_return (tests : List (String × Callback))
    (pre : List (String × Callback))
    (hs : (hookOf tests "setup" []).result = Completion.normal)
    (hq : quiet (hookOf tests "before") (hookOf tests "after")
      (hookOf tests "setup" []).scope pre)
    (t : Target) (x : Scope) (f : Callback)
    (hin : (t, x) ∈ (Target.setup, []) :: roundCalls (hookOf tests "before")
      (hookOf tests "after") (hookOf tests "setup" []).scope pre)
    (hf : hookFor tests t = some f) : (f x).result = Completion.normal := by
  simp only [List.mem_cons] at hin
  rcases hin with hin | hin
  · obtain ⟨rfl, rfl⟩ := Prod.mk.inj hin
    simp only [hookFor, Option.some.injEq] at hf
    subst hf
    exact hs
  · obtain ⟨q1, q2, q3, q4⟩ := roundCalls_quiet _ _ _ _ hq _ hin
    cases t with
    | setup => exact absurd rfl q3
    | cleanup => exact absurd rfl q4
    | test n => simp [hookFor] at hf
    | before =>
      simp only [hookFor, Option.some.injEq] at hf
      subst hf
      exact q1 rfl
    | after =>
      simp only [hookFor, Option.some.injEq] at hf
      subst hf
      exact q2 rfl


/-- The calls of the rounds of `pre ++ [e]` without the last of them, the
call of `after` in the round of `e`. -/
theorem roundCalls_dropLast (b a : Callback) (pre : List (String × Callback))
    (e : String × Callback) (s : Scope) :
    ((Target.setup, ([] : Scope)) :: roundCalls b a s (pre ++ [e])).dropLast =
      (Target.setup, []) :: roundCalls b a s pre ++
        [(Target.before, scopeAfter b a s pre),
          (Target.test e.1, (b (scopeAfter b a s pre)).scope)] := by
  have hcalls : ((Target.setup, ([] : Scope)) :: roundCalls b a s (pre ++ [e])) =
      ((Target.setup, []) :: roundCalls b a s pre ++
        [(Target.before, scopeAfter b a s pre),
          (Target.test e.1, (b (scopeAfter b a s pre)).scope)]) ++
        [(Target.after, (e.2 (b (scopeAfter b a s pre)).scope).scope)] := by
    rw [roundCalls_append]
    simp [roundCalls]
  rw [hcalls, List.dropLast_concat]

/-- The run of a mapping with at least one test in which no hook throws:
it ends as the call of the host timer ends, which follows the summary inside
`execute` of the last test; the last `after` and `cleanup` are called only
when the timer returns. -/
theorem scenario_quiet (h : Host) (d : String) (tests : List (String × Callback))
    (pre : List (String × Callback)) (e : String × Callback)
    (hT : testsOf tests = pre ++ [e])
    (hs : (hookOf tests "setup" []).result = Completion.normal)
    (hq : quiet (hookOf tests "before") (hookOf tests "after")
      (hookOf tests "setup" []).scope (testsOf tests))
    (hc : (hookOf tests "cleanup" (scopeAfter (hookOf tests "before") (hookOf tests "after")
      (hookOf tests "setup" []).scope (testsOf tests))).result = Completion.normal) :
    ∃ (g : Gerbil) (scope : Scope) (t1 t2 : List Event) (delay : Nat),
      scenario h d tests = some (g, scope, h.setTimeout JSValue.undefined delay) ∧
      g.count = (testsOf tests).length ∧
      g.success = (verdicts (hookOf tests "before") (hookOf tests "after")
        (hookOf tests "setup" []).scope (testsOf tests)).count true ∧
      g.failures = (verdicts (hookOf tests "before") (hookOf tests "after")
        (hookOf tests "setup" []).scope (testsOf tests)).count false ∧
      g.trace = t1 ++ [Event.warn (summaryLine g.success g.failures g.count), Event.info "",
        Event.setTimeout JSValue.undefined delay] ++ t2 ∧
      calls t1 = ((Target.setup, []) :: roundCalls (hookOf tests "before")
        (hookOf tests "after") (hookOf tests "setup" []).scope (testsOf tests)).dropLast ∧
      summaries t1 = [] ∧
      (h.setTimeout JSValue.undefined delay = Completion.normal →
        (Target.setup, []) :: roundCalls (hookOf tests "before")
          (hookOf tests "after") (hookOf tests "setup" []).scope (testsOf tests) ++
          [(Target.cleanup, scopeAfter (hookOf tests "before") (hookOf tests "after")
            (hookOf tests "setup" []).scope (testsOf tests))] = calls t1 ++ calls t2) ∧
      (h.setTimeout JSValue.undefined delay ≠ Completion.normal → t2 = []) ∧
      summaries t2 = [] ∧ executed t2 = [] := by
  have hq2 := hq
  rw [hT, quiet_append] at hq2
  obtain ⟨hq3, hb, ha, -⟩ := hq2
  have hc2 := hc
  rw [hT, scopeAfter_append] at hc2
  simp only [scopeAfter, roundScope] at hc2
  obtain ⟨t1, delay, c1, c2, c3, c4⟩ := scenario_last_round h d tests pre e _ _ _ _ _ _ _
    rfl rfl rfl rfl rfl rfl rfl hT hs hq3 hb
  have hdrop := roundCalls_dropLast (hookOf tests "before") (hookOf tests "after") pre e
    (hookOf tests "setup" []).scope
  rw [← hT, ← c1] at hdrop
  cases ht : h.setTimeout JSValue.undefined delay with
  | normal =>
    obtain ⟨g, r1, r2, r3, r4, r5, r6⟩ := (c4 ht).2 ha
    rw [hc2] at r1
    refine ⟨g, _, t1, [Event.invoke Target.after (e.2 (hookOf tests "before" (scopeAfter
        (hookOf tests "before") (hookOf tests "after") (hookOf tests "setup" []).scope
        pre)).scope).scope,
      Event.invoke Target.cleanup (hookOf tests "after" (e.2 (hookOf tests "before" (scopeAfter
        (hookOf tests "before") (hookOf tests "after") (hookOf tests "setup" []).scope
        pre)).scope).scope).scope], delay,
      by rw [ht]; exact r1, r3, r4, r5, ?_, hdrop.symm, c2, ?_, ?_, rfl, rfl⟩
    · rw [r2, r3, r4, r5]
      simp
    · intro _
      rw [c1, hT, roundCalls_append, scopeAfter_append]
      simp [roundCalls, calls, scopeAfter, roundScope]
    · intro hne
      exact absurd ht hne
  | throw v =>
    obtain ⟨g, r1, r2, r3, r4, r5, r6⟩ := c3 v ht
    refine ⟨g, _, t1, [], delay, by rw [ht]; exact r1, r3, r4, r5, ?_, hdrop.symm, c2, ?_, ?_,
      rfl, rfl⟩
    · rw [r2, r3, r4, r5]
      simp
    · intro hn
      rw [ht] at hn
      cases hn
    · intro _
      rfl


/-- A hook that throws in a run that reaches `execute` of the last test: it
can only be the last `after` or `cleanup`, called because the host timer
returned, and the summary has been emitted before it. -/
theorem scenario_last_round_raise (h : Host) (d : String) (tests : List (String × Callback))
    (pre : List (String × Callback)) (e : String × Callback)
    (hT : testsOf tests = pre ++ [e])
    (hs : (hookOf tests "setup" []).result = Completion.normal)
    (hq : quiet (hookOf tests "before") (hookOf tests "after")
      (hookOf tests "setup" []).scope pre)
    (hb : (hookOf tests "before" (scopeAfter (hookOf tests "before") (hookOf tests "after")
      (hookOf tests "setup" []).scope pre)).result = Completion.normal) :
    ∃ (g : Gerbil) (scope : Scope) (c : Completion),
      scenario h d tests = some (g, scope, c) ∧
      ∀ (t : Target) (x : Scope) (f : Callback) (v : JSValue),
        (t, x) ∈ calls g.trace → hookFor tests t = some f →
        (f x).result = Completion.throw v →
          c = Completion.throw v ∧
          (calls g.trace).getLast? = some (t, x) ∧
          executed g.trace = (testsOf tests).map Prod.fst ∧
          g.queue.pending = [] ∧
          summaries g.trace ≠ [] ∧
          ∃ delay, h.setTimeout JSValue.undefined delay = Completion.normal := by
  obtain ⟨t1, delay, c1, c2, c3, c4⟩ := scenario_last_round h d tests pre e _ _ _ _ _ _ _
    rfl rfl rfl rfl rfl rfl rfl hT hs hq hb
  generalize hsk : scopeAfter (hookOf tests "before") (hookOf tests "after")
    (hookOf tests "setup" []).scope pre = sk at *
  have hpre : ∀ (t : Target) (x : Scope) (f : Callback) (v : JSValue),
      (t, x) ∈ calls t1 → hookFor tests t = some f →
      (f x).result = Completion.throw v → False := by
    intro t x f v hin hf hv
    rw [c1] at hin
    simp only [List.mem_append, List.mem_cons, List.mem_singleton, List.not_mem_nil,
      or_false] at hin
    rcases hin with hin | hin | hin
    · have := prefix_calls_return tests pre hs hq t x f (by
        simp only [List.mem_cons]; exact hin) hf
      rw [this] at hv
      cases hv
    · obtain ⟨rfl, rfl⟩ := Prod.mk.inj hin
      simp only [hookFor, Option.some.injEq] at hf
      subst hf
      rw [hb] at hv
      cases hv
    · obtain ⟨rfl, rfl⟩ := Prod.mk.inj hin
      simp [hookFor] at hf
  have hex : executed t1 = (testsOf tests).map Prod.fst := by
    rw [executed_eq, c1, hT]
    simp [List.filterMap_cons, List.filterMap_append, testName, roundCalls_tests]
  have q1 : Event.isSummary (Event.warn (summaryLine
      ((verdicts (hookOf tests "before") (hookOf tests "after")
        (hookOf tests "setup" []).scope (testsOf tests)).count true)
      ((verdicts (hookOf tests "before") (hookOf tests "after")
        (hookOf tests "setup" []).scope (testsOf tests)).count false)
      (testsOf tests).length)) = true := rfl
  cases ht : h.setTimeout JSValue.undefined delay with
  | throw w =>
    obtain ⟨g, r1, r2, r3, r4, r5, r6⟩ := c3 w ht
    refine ⟨g, _, _, r1, ?_⟩
    intro t x f v hin hf hv
    rw [r2, calls_append] at hin
    simp only [calls, List.filterMap_cons, List.filterMap_nil, List.append_nil] at hin
    exact (hpre t x f v hin hf hv).elim
  | normal =>
    cases ha : (hookOf tests "after" (e.2 (hookOf tests "before" sk).scope).scope).result with
    | throw v0 =>
      obtain ⟨g, r1, r2, r3, r4, r5, r6⟩ := (c4 ht).1 v0 ha
      have hcalls : calls g.trace = calls t1 ++
          [(Target.after, (e.2 (hookOf tests "before" sk).scope).scope)] := by
        rw [r2, calls_append]
        simp [calls]
      refine ⟨g, _, _, r1, ?_⟩
      intro t x f v hin hf hv
      rw [hcalls] at hin
      simp only [List.mem_append, List.mem_singleton] at hin
      rcases hin with hin | hin
      · exact (hpre t x f v hin hf hv).elim
      · obtain ⟨rfl, rfl⟩ := Prod.mk.inj hin
        simp only [hookFor, Option.some.injEq] at hf
        subst hf
        rw [ha] at hv
        refine ⟨hv, ?_, ?_, r6, ?_, delay, ht⟩
        · rw [hcalls]
          simp [List.getLast?_append]
        · rw [executed_eq, hcalls, List.filterMap_append, ← executed_eq, hex]
          simp [testName]
        · rw [r2, summaries_append]
          simp [summaries, List.filter_cons, q1]
    | normal =>
      obtain ⟨g, r1, r2, r3, r4, r5, r6⟩ := (c4 ht).2 ha
      have hcalls : calls g.trace = calls t1 ++
          [(Target.after, (e.2 (hookOf tests "before" sk).scope).scope),
            (Target.cleanup,
              (hookOf tests "after" (e.2 (hookOf tests "before" sk).scope).scope).scope)] := by
        rw [r2, calls_append]
        simp [calls]
      refine ⟨g, _, _, r1, ?_⟩
      intro t x f v hin hf hv
      rw [hcalls] at hin
      simp only [List.mem_append, List.mem_cons, List.mem_singleton, List.not_mem_nil,
        or_false] at hin
      rcases hin with hin | hin | hin
      · exact (hpre t x f v hin hf hv).elim
      · obtain ⟨rfl, rfl⟩ := Prod.mk.inj hin
        simp only [hookFor, Option.some.injEq] at hf
        subst hf
        rw [ha] at hv
        cases hv
      · obtain ⟨rfl, rfl⟩ := Prod.mk.inj hin
        simp only [hookFor, Option.some.injEq] at hf
        subst hf
        refine ⟨hv, ?_, ?_, r6, ?_, delay, ht⟩
        · rw [hcalls]
          simp [List.getLast?_append]
        · rw [executed_eq, hcalls, List.filterMap_append, ← executed_eq, hex]
          simp [testName]
        · rw [r2, summaries_append]
          simp [summaries, List.filter_cons, q1]


/-! ## The claims -/

/-- Claim C1. For every host and every test mapping whose hooks do not throw
in the run (`setup` returns, `before` and `after` return in every round,
`cleanup` returns), `enqueue` followed by `consume` ends, and then `count` is
the number `N` of the entries that are not reserved, `success` is the number of
the tests whose function returned, `failures` is the number of the tests whose
function threw, and `success + failures = count`. A test that throws is one
failure and the later tests are run all the same: all `N` of them are counted.
The run returns, unless the host timer that `execute` calls after the last
test throws: then the run throws that to its caller, with the same counters. -/
theorem run_counts (h : Host) (d : String) (tests : List (String × Callback))
    (hs : (hookOf tests "setup" []).result = Completion.normal)
    (hq : quiet (hookOf tests "before") (hookOf tests "after")
      (hookOf tests "setup" []).scope (testsOf tests))
    (hc : (hookOf tests "cleanup" (scopeAfter (hookOf tests "before") (hookOf tests "after")
      (hookOf tests "setup" []).scope (testsOf tests))).result = Completion.normal) :
    ∃ (g : Gerbil) (scope : Scope) (c : Completion),
      scenario h d tests = some (g, scope, c) ∧
      g.count = (testsOf tests).length ∧
      g.success = (verdicts (hookOf tests "before") (hookOf tests "after")
        (hookOf tests "setup" []).scope (testsOf tests)).count true ∧
      g.failures = (verdicts (hookOf tests "before") (hookOf tests "after")
        (hookOf tests "setup" []).scope (testsOf tests)).count false ∧
      g.success + g.failures = g.count ∧
      (c = Completion.normal ∨
        (testsOf tests ≠ [] ∧ ∃ delay, c = h.setTimeout JSValue.undefined delay)) := by
  rcases List.eq_nil_or_concat (testsOf tests) with hnil | ⟨pre, e, hT⟩
  · obtain ⟨g, h1, -, -, h4, h5, h6, -⟩ := scenario_empty h d tests hnil hs
    rw [hnil] at hc
    simp only [scopeAfter] at hc
    rw [hc] at h1
    refine ⟨g, _, _, h1, ?_, ?_, ?_, ?_, Or.inl rfl⟩
    · rw [h4, hnil]; rfl
    · rw [h5, hnil]; rfl
    · rw [h6, hnil]; rfl
    · rw [h4, h5, h6]
  · rw [List.concat_eq_append] at hT
    obtain ⟨g, scope, t1, t2, delay, h1, h2, h3, h4, -⟩ :=
      scenario_quiet h d tests pre e hT hs hq hc
    refine ⟨g, scope, _, h1, h2, h3, h4, ?_, Or.inr ⟨?_, delay, rfl⟩⟩
    · rw [h3, h4, h2, count_true_add_false, verdicts_length]
    · rw [hT]; simp

/-- The run of `{ a: passes, b: throws("x"), c: passes }`: it ends with
`count = 3`, `success = 2`, `failures = 1`, and the error line of the logger
names `b` and carries the message `x`; with the timer of Node the run throws
the `TypeError` of the timer, with the timer of a browser it returns. -/
theorem run_counts_witness :
    (∃ (g : Gerbil) (scope : Scope),
      scenario sampleHost "d" abcTests = some (g, scope,
        Completion.throw (JSValue.object 0 Ctor.Other (some "TypeError"))) ∧
      g.count = 3 ∧ g.success = 2 ∧ g.failures = 1 ∧ Event.error "   x b (x)" ∈ g.trace) ∧
    (∃ (g : Gerbil) (scope : Scope),
      scenario browserHost "d" abcTests = some (g, scope, Completion.normal) ∧
      g.count = 3 ∧ g.success = 2 ∧ g.failures = 1 ∧ Event.error "   x b (x)" ∈ g.trace) := by
  constructor
  · obtain ⟨g, scope, c, h1, h2, h3, h4, -, -⟩ :=
      run_counts sampleHost "d" abcTests rfl ⟨rfl, rfl, rfl, rfl, rfl, rfl, trivial⟩ rfl
    have e : (scenario sampleHost "d" abcTests).map (fun r => (r.1.trace, r.2.2)) =
        some ([Event.info "== Running d ==",
          Event.invoke Target.setup [], Event.invoke Target.before [],
          Event.invoke (Target.test "a") [], Event.log "   * a (0 assertions)",
          Event.invoke Target.after [], Event.invoke Target.before [],
          Event.invoke (Target.test "b") [], Event.error "   x b (x)",
          Event.invoke Target.after [], Event.invoke Target.before [],
          Event.invoke (Target.test "c") [], Event.log "   * c (0 assertions)",
          Event.warn "All tests completed: 2 passed, 1 failed of 3 tests", Event.info "",
          Event.setTimeout JSValue.undefined 0],
          Completion.throw (JSValue.object 0 Ctor.Other (some "TypeError"))) := rfl
    rw [h1] at e
    simp only [Option.map_some', Option.some.injEq, Prod.mk.injEq] at e
    obtain ⟨e1, e2⟩ := e
    subst e2
    refine ⟨g, scope, h1, h2, h3, h4, ?_⟩
    rw [e1]
    simp
  · obtain ⟨g, scope, c, h1, h2, h3, h4, -, -⟩ :=
      run_counts browserHost "d" abcTests rfl ⟨rfl, rfl, rfl, rfl, rfl, rfl, trivial⟩ rfl
    have e : (scenario browserHost "d" abcTests).map (fun r => (r.1.trace, r.2.2)) =
        some ([Event.info "== Running d ==",
          Event.invoke Target.setup [], Event.invoke Target.before [],
          Event.invoke (Target.test "a") [], Event.log "   * a (0 assertions)",
          Event.invoke Target.after [], Event.invoke Target.before [],
          Event.invoke (Target.test "b") [], Event.error "   x b (x)",
          Event.invoke Target.after [], Event.invoke Target.before [],
          Event.invoke (Target.test "c") [], Event.log "   * c (0 assertions)",
          Event.warn "All tests completed: 2 passed, 1 failed of 3 tests", Event.info "",
          Event.setTimeout JSValue.undefined 0,
          Event.invoke Target.after [], Event.invoke Target.cleanup []],
          Completion.normal) := rfl
    rw [h1] at e
    simp only [Option.map_some', Option.some.injEq, Prod.mk.injEq] at e
    obtain ⟨e1, e2⟩ := e
    subst e2
    refine ⟨g, scope, h1, h2, h3, h4, ?_⟩
    rw [e1]
    simp

/-- Claim C2 fails on the code when the host timer throws for a handler that
is not a function, as the timer of Node does. For every test mapping with at
least one test whose hooks do not throw, on a host whose timer throws `v` for
the handler `undefined`: the run throws `v` to its caller, and the calls made
are the sequence of the claim (`setup`, then per test `before`, the test,
`after`, then `cleanup`) without its last two calls. Every test has been
executed, in the order of the enumeration, but `after` is not called for the
last test and `cleanup` is never called. -/
theorem last_after_and_cleanup_skipped (h : Host) (d : String)
    (tests : List (String × Callback)) (v : JSValue)
    (hs : (hookOf tests "setup" []).result = Completion.normal)
    (hq : quiet (hookOf tests "before") (hookOf tests "after")
      (hookOf tests "setup" []).scope (testsOf tests))
    (hc : (hookOf tests "cleanup" (scopeAfter (hookOf tests "before") (hookOf tests "after")
      (hookOf tests "setup" []).scope (testsOf tests))).result = Completion.normal)
    (hN : testsOf tests ≠ [])
    (ht : ∀ delay, h.setTimeout JSValue.undefined delay = Completion.throw v) :
    ∃ (g : Gerbil) (scope : Scope),
      scenario h d tests = some (g, scope, Completion.throw v) ∧
      calls g.trace = ((Target.setup, []) :: roundCalls (hookOf tests "before")
        (hookOf tests "after") (hookOf tests "setup" []).scope (testsOf tests)).dropLast ∧
      executed g.trace = (testsOf tests).map Prod.fst ∧
      (calls g.trace).countP (fun c => c.1 = Target.after) + 1 = (testsOf tests).length ∧
      (calls g.trace).countP (fun c => c.1 = Target.cleanup) = 0 := by
  rcases List.eq_nil_or_concat (testsOf tests) with hnil | ⟨pre, e, hT⟩
  · exact absurd hnil hN
  · rw [List.concat_eq_append] at hT
    obtain ⟨g, scope, t1, t2, delay, h1, -, -, -, h5, h6, -, -, h9, -, -⟩ :=
      scenario_quiet h d tests pre e hT hs hq hc
    rw [ht delay] at h1
    have ht2 : t2 = [] := h9 (by rw [ht delay]; exact fun hh => by cases hh)
    have hcalls : calls g.trace = ((Target.setup, []) :: roundCalls (hookOf tests "before")
        (hookOf tests "after") (hookOf tests "setup" []).scope (testsOf tests)).dropLast := by
      rw [h5, ht2, calls_append, calls_append, h6]
      simp [calls]
    obtain ⟨c1, c2⟩ := roundCalls_hooks (hookOf tests "before") (hookOf tests "after")
      pre (hookOf tests "setup" []).scope
    refine ⟨g, scope, h1, hcalls, ?_, ?_, ?_⟩
    · rw [executed_eq, hcalls, hT, roundCalls_dropLast]
      simp [List.filterMap_cons, List.filterMap_append, testName, roundCalls_tests]
    · rw [hcalls, hT, roundCalls_dropLast]
      simp [List.countP_cons, List.countP_append, roundCalls_afters]
    · rw [hcalls, hT, roundCalls_dropLast]
      simp [List.countP_cons, List.countP_append, c2]

/-- The run of `{ setup: marks("s"), a: marks("a"), cleanup: passes, b: passes }`
with the timer of Node: the run throws the `TypeError` of the timer after the
test `b`; `after` has been called once, for `a`, and `cleanup` not at all. -/
theorem last_after_and_cleanup_skipped_witness :
    ∃ (g : Gerbil) (scope : Scope),
      scenario sampleHost "d" markedTests = some (g, scope,
        Completion.throw (JSValue.object 0 Ctor.Other (some "TypeError"))) ∧
      calls g.trace = [(Target.setup, []),
        (Target.before, [("s", JSValue.boolean true)]),
        (Target.test "a", [("s", JSValue.boolean true)]),
        (Target.after, [("a", JSValue.boolean true), ("s", JSValue.boolean true)]),
        (Target.before, [("a", JSValue.boolean true), ("s", JSValue.boolean true)]),
        (Target.test "b", [("a", JSValue.boolean true), ("s", JSValue.boolean true)])] ∧
      executed g.trace = ["a", "b"] := by
  obtain ⟨g, scope, h1, h2, h3, -, -⟩ :=
    last_after_and_cleanup_skipped sampleHost "d" markedTests
      (JSValue.object 0 Ctor.Other (some "TypeError")) rfl ⟨rfl, rfl, rfl, rfl, trivial⟩ rfl
      (fun hh => absurd (congrArg List.length hh) (by decide)) (fun _ => rfl)
  exact ⟨g, scope, h1, h2, h3⟩

namespace Gerbil.Queue

variable {α : Type}

/-- Claim C3. `Gerbil.Queue` simulates a plain first-in first-out list. For
every finite sequence of `push`, `pull` and `length` applied to a new queue,
the answers are those of the list of the items pushed and not yet returned:
each `pull` answers the oldest such item, or the empty signal when there is
none (and the list stays empty), and `length` answers the number of such
items. In particular, after pushing the `n` items of `ts`, pulling and reading
the length `n + 1` times gives the answers `pullAllReplies ts`: the pull
number `k + 1` answers the item `ts[k]`, the length after it is
`n - (k + 1)`, so it is zero only after the `n`-th pull, and the pull number
`n + 1` answers the empty signal, with length zero after it. -/
theorem queue_simulates_fifo :
    (∀ ops : List (Op α), run ops (new : Gerbil.Queue α) = fifoRun ops []) ∧
    (∀ ts : List α, run (ts.map Op.push ++ pullAll ts) (new : Gerbil.Queue α) =
      ts.map (fun _ => Reply.pushed) ++ pullAllReplies ts) ∧
    (∀ (ts : List α) (k : Nat) (hk : k < ts.length),
      (pullAllReplies ts)[2 * k]? = some (Reply.pulled (some ts[k])) ∧
      (pullAllReplies ts)[2 * k + 1]? =
        some (Reply.length ((ts.length : Int) - ((k : Int) + 1)))) ∧
    (∀ ts : List α,
      (pullAllReplies ts)[2 * ts.length]? = some (Reply.pulled none) ∧
      (pullAllReplies ts)[2 * ts.length + 1]? = some (Reply.length 0)) := by
  refine ⟨fun ops => run_sim ops new inv_new, fun ts => ?_,
    fun ts k hk => (pullAllReplies_at ts k).1 hk, fun ts => (pullAllReplies_at ts _).2 rfl⟩
  rw [run_sim _ new inv_new, fifoRun_append, (fifoRun_pushes ts _).1, (fifoRun_pushes ts _).2]
  simp [pending, new, fifoRun_pullAll]

end Gerbil.Queue

/-- Claim C4. For every test mapping with `N` tests and every `k` with
`1 ≤ k ≤ N`: if `setup` returns, no hook throws in the first `k - 1` rounds, and
`before` throws `v` on its `k`-th call, then `consume` throws `v` to its
caller, exactly the first `k - 1` tests have been executed, the last call made
is that `k`-th call of `before`, the tests `k + 1 .. N` are still queued (test
`k` was pulled and never executed), and no summary was emitted nor
scheduled. -/
theorem before_raising_stops_run (h : Host) (d : String) (tests : List (String × Callback))
    (k : Nat) (v : JSValue) (hk1 : 1 ≤ k) (hk : k ≤ (testsOf tests).length)
    (hs : (hookOf tests "setup" []).result = Completion.normal)
    (hq : quiet (hookOf tests "before") (hookOf tests "after")
      (hookOf tests "setup" []).scope ((testsOf tests).take (k - 1)))
    (hb : (hookOf tests "before" (scopeAfter (hookOf tests "before") (hookOf tests "after")
      (hookOf tests "setup" []).scope ((testsOf tests).take (k - 1)))).result =
        Completion.throw v) :
    ∃ (g : Gerbil) (scope : Scope),
      scenario h d tests = some (g, scope, Completion.throw v) ∧
      executed g.trace = ((testsOf tests).take (k - 1)).map Prod.fst ∧
      (calls g.trace).countP (fun c => c.1 = Target.before) = k ∧
      (calls g.trace).getLast? = some (Target.before,
        scopeAfter (hookOf tests "before") (hookOf tests "after")
          (hookOf tests "setup" []).scope ((testsOf tests).take (k - 1))) ∧
      g.queue.pending.map TestRecord.entry = (testsOf tests).drop k ∧
      summaries g.trace = [] := by
  obtain ⟨e, he⟩ := take_pred_split (testsOf tests) k hk1 hk
  obtain ⟨g, h1, h2, h3, h4⟩ :=
    scenario_before_throws h d tests _ _ e v he hs hq hb
  refine ⟨g, _, h1, ?_, ?_, ?_, h4, h3⟩
  · rw [executed_eq, h2]
    simp [List.filterMap_cons, List.filterMap_append, testName, roundCalls_tests]
  · rw [h2]
    simp only [List.countP_cons, List.countP_append, roundCalls_befores, List.length_take]
    simp
    omega
  · rw [h2]
    simp [List.getLast?_cons, List.getLast?_append]

/-- The run of `{ before: beforeOnce, a, b, c }`, whose `before` throws on
its second call: only `a` is executed, `c` is still queued, no summary. -/
theorem before_raising_stops_run_witness :
    ∃ (g : Gerbil) (scope : Scope),
      scenario sampleHost "d" guardedTests =
        some (g, scope, Completion.throw (JSValue.string "again")) ∧
      executed g.trace = ["a"] ∧
      g.queue.pending.map TestRecord.entry = [("c", passes)] ∧
      summaries g.trace = [] := by
  obtain ⟨g, scope, h1, h2, -, -, h5, h6⟩ :=
    before_raising_stops_run sampleHost "d" guardedTests 2 (JSValue.string "again")
      (by decide) (by decide) rfl ⟨rfl, rfl, trivial⟩ rfl
  exact ⟨g, scope, h1, h2, h5, h6⟩


/-- Claim C5, amended. Every run ends, and for every run in which a call of
a hook (`setup`, `before`, `after` or `cleanup`) throws `v`: the run throws `v`
to the caller, that call is the last call of the run, and the tests still
queued then are never executed (the enumerated tests are the executed ones,
then at most one that was pulled and not executed, then the queued ones). No
summary was emitted nor scheduled exactly when a test had not been executed
by then or the mapping holds no test; else the hook that throws is the `after`
of the last test or `cleanup`, called after the summary was emitted inside
`execute`. That happens only on a host whose timer returns for the handler
`undefined`: on a host whose timer never does, no summary was emitted. -/
theorem hook_raise_aborts_run (h : Host) (d : String) (tests : List (String × Callback)) :
    ∃ (g : Gerbil) (scope : Scope) (c : Completion),
      scenario h d tests = some (g, scope, c) ∧
      ∀ (t : Target) (x : Scope) (f : Callback) (v : JSValue),
        (t, x) ∈ calls g.trace → hookFor tests t = some f →
        (f x).result = Completion.throw v →
          c = Completion.throw v ∧
          (calls g.trace).getLast? = some (t, x) ∧
          (∃ skipped : List String, (testsOf tests).map Prod.fst =
            executed g.trace ++ skipped ++ g.queue.pending.map TestRecord.name) ∧
          (summaries g.trace = [] ↔
            (executed g.trace).length < (testsOf tests).length ∨ testsOf tests = []) ∧
          ((∀ delay, h.setTimeout JSValue.undefined delay ≠ Completion.normal) →
            summaries g.trace = []) := by
  have hname : ∀ l : List TestRecord,
      l.map TestRecord.name = (l.map TestRecord.entry).map Prod.fst := by
    intro l; simp [TestRecord.entry]
  have hlast : ∀ (pre : List (String × Callback)) (e : String × Callback),
      testsOf tests = pre ++ [e] →
      (hookOf tests "setup" []).result = Completion.normal →
      quiet (hookOf tests "before") (hookOf tests "after")
        (hookOf tests "setup" []).scope pre →
      (hookOf tests "before" (scopeAfter (hookOf tests "before") (hookOf tests "after")
        (hookOf tests "setup" []).scope pre)).result = Completion.normal →
      ∃ (g : Gerbil) (scope : Scope) (c : Completion),
        scenario h d tests = some (g, scope, c) ∧
        ∀ (t : Target) (x : Scope) (f : Callback) (v : JSValue),
          (t, x) ∈ calls g.trace → hookFor tests t = some f →
          (f x).result = Completion.throw v →
            c = Completion.throw v ∧
            (calls g.trace).getLast? = some (t, x) ∧
            (∃ skipped : List String, (testsOf tests).map Prod.fst =
              executed g.trace ++ skipped ++ g.queue.pending.map TestRecord.name) ∧
            (summaries g.trace = [] ↔
              (executed g.trace).length < (testsOf tests).length ∨ testsOf tests = []) ∧
            ((∀ delay, h.setTimeout JSValue.undefined delay ≠ Completion.normal) →
              summaries g.trace = []) := by
    intro pre e hT hs hq hb
    obtain ⟨g, scope, c, h1, h2⟩ := scenario_last_round_raise h d tests pre e hT hs hq hb
    refine ⟨g, scope, c, h1, ?_⟩
    intro t x f v hin hf hv
    obtain ⟨k1, k2, k3, k4, k5, delay, k6⟩ := h2 t x f v hin hf hv
    refine ⟨k1, k2, ⟨[], ?_⟩, ⟨fun hsum => absurd hsum k5, fun hor => ?_⟩,
      fun hall => absurd k6 (hall delay)⟩
    · rw [k3, k4]
      simp
    · rcases hor with hlt | hnil
      · rw [k3, List.length_map] at hlt
        omega
      · rw [hT] at hnil
        simp at hnil
  cases hs : (hookOf tests "setup" []).result with
  | throw v0 =>
    obtain ⟨g, h1, h2, h3, h4⟩ := scenario_setup_throws h d tests v0 hs
    refine ⟨g, _, _, h1, ?_⟩
    intro t x f v hin hf hv
    rw [h2, List.mem_singleton] at hin
    obtain ⟨rfl, rfl⟩ := Prod.mk.inj hin
    simp only [hookFor, Option.some.injEq] at hf
    subst hf
    rw [hs] at hv
    have hex : executed g.trace = [] := by rw [executed_eq, h2]; rfl
    refine ⟨hv, by rw [h2]; rfl, ⟨[], ?_⟩, ⟨fun _ => ?_, fun _ => h3⟩, fun _ => h3⟩
    · rw [hex, hname, h4]
      simp
    · rw [hex]
      cases hl : testsOf tests with
      | nil => exact Or.inr rfl
      | cons a l => exact Or.inl (by simp)
  | normal =>
    rcases List.eq_nil_or_concat (testsOf tests) with hnil | ⟨pre0, e0, hT0⟩
    · obtain ⟨g, h1, h2, h3, h4, h5, h6, h7⟩ := scenario_empty h d tests hnil hs
      refine ⟨g, _, _, h1, ?_⟩
      intro t x f v hin hf hv
      have hex : executed g.trace = [] := by rw [executed_eq, h2]; rfl
      rw [h2] at hin
      simp only [List.mem_cons, List.mem_singleton, List.not_mem_nil, or_false] at hin
      rcases hin with hin | hin
      · obtain ⟨rfl, rfl⟩ := Prod.mk.inj hin
        simp only [hookFor, Option.some.injEq] at hf
        subst hf
        rw [hs] at hv
        cases hv
      · obtain ⟨rfl, rfl⟩ := Prod.mk.inj hin
        simp only [hookFor, Option.some.injEq] at hf
        subst hf
        refine ⟨hv, by rw [h2]; rfl, ⟨[], ?_⟩, ⟨fun _ => Or.inr hnil, fun _ => h3⟩, fun _ => h3⟩
        rw [hex, h7, hnil]
        rfl
    · rw [List.concat_eq_append] at hT0
      rcases quiet_or_first (hookOf tests "before") (hookOf tests "after") (testsOf tests)
        (hookOf tests "setup" []).scope with hq | ⟨pre, e, post, hT, hq, hfirst⟩
      · have hq2 := hq
        rw [hT0, quiet_append] at hq2
        obtain ⟨hq3, hb, -, -⟩ := hq2
        exact hlast pre0 e0 hT0 hs hq3 hb
      · rcases hfirst with ⟨v0, hb⟩ | ⟨hb, v0, ha⟩
        · obtain ⟨g, h1, h2, h3, h4⟩ :=
            scenario_before_throws h d tests pre post e v0 hT hs hq hb
          refine ⟨g, _, _, h1, ?_⟩
          intro t x f v hin hf hv
          have hex : executed g.trace = pre.map Prod.fst := by
            rw [executed_eq, h2]
            simp [List.filterMap_cons, List.filterMap_append, testName, roundCalls_tests]
          rw [h2] at hin
          simp only [List.mem_append, List.mem_singleton] at hin
          rcases hin with hin | hin
          · have := prefix_calls_return tests pre hs hq t x f hin hf
            rw [this] at hv
            cases hv
          · obtain ⟨rfl, rfl⟩ := Prod.mk.inj hin
            simp only [hookFor, Option.some.injEq] at hf
            subst hf
            rw [hb] at hv
            refine ⟨hv, ?_, ⟨[e.1], ?_⟩, ⟨fun _ => Or.inl ?_, fun _ => h3⟩, fun _ => h3⟩
            · rw [h2]
              simp [List.getLast?_cons, List.getLast?_append]
            · rw [hex, hname, h4, hT]
              simp
            · rw [hex, hT]
              simp
        · by_cases hpost : post = []
          · rw [hpost] at hT
            exact hlast pre e hT hs hq hb
          · obtain ⟨g, h1, h2, h3, h4⟩ :=
              scenario_after_throws h d tests pre post e v0 hT hs hq hb ha hpost
            refine ⟨g, _, _, h1, ?_⟩
            intro t x f v hin hf hv
            have hex : executed g.trace = pre.map Prod.fst ++ [e.1] := by
              rw [executed_eq, h2]
              simp [List.filterMap_cons, List.filterMap_append, testName, roundCalls_tests]
            rw [h2] at hin
            simp only [List.mem_append, List.mem_cons, List.mem_singleton, List.not_mem_nil,
              or_false] at hin
            rcases hin with hin | hin | hin | hin
            · have := prefix_calls_return tests pre hs hq t x f (List.mem_cons.mpr hin) hf
              rw [this] at hv
              cases hv
            · obtain ⟨rfl, rfl⟩ := Prod.mk.inj hin
              simp only [hookFor, Option.some.injEq] at hf
              subst hf
              rw [hb] at hv
              cases hv
            · obtain ⟨rfl, rfl⟩ := Prod.mk.inj hin
              simp [hookFor] at hf
            · obtain ⟨rfl, rfl⟩ := Prod.mk.inj hin
              simp only [hookFor, Option.some.injEq] at hf
              subst hf
              rw [ha] at hv
              have hlen : 0 < post.length := List.length_pos.mpr hpost
              refine ⟨hv, ?_, ⟨[], ?_⟩, ⟨fun _ => Or.inl ?_, fun _ => h3⟩, fun _ => h3⟩
              · rw [h2]
                simp [List.getLast?_cons, List.getLast?_append]
              · rw [hex, hname, h4, hT]
                simp
              · rw [hex, hT]
                simp
                omega

/-- Claim C5 as stated fails on a host whose timer returns for the handler
`undefined`, as the timer of a browser does: in the run of
`{ a: passes, cleanup: throws("boom") }` the hook `cleanup` throws and the run
throws `boom` to the caller, yet the summary line is in the trace. -/
theorem summary_despite_cleanup_raise :
    (scenario browserHost "d" cleanupTests).map (fun r => (r.1.trace, r.2.2)) =
      some ([Event.info "== Running d ==",
        Event.invoke Target.setup [],
        Event.invoke Target.before [],
        Event.invoke (Target.test "a") [],
        Event.log "   * a (0 assertions)",
        Event.warn "All tests completed: 1 passed, 0 failed of 1 tests",
        Event.info "",
        Event.setTimeout JSValue.undefined 0,
        Event.invoke Target.after [],
        Event.invoke Target.cleanup []],
      Completion.throw (JSValue.string "boom")) := rfl

/-- The run of `{ before: beforeOnce, a, b, c }`: the second call of `before`
throws, it is the last call, and there is no summary. -/
theorem hook_raise_aborts_run_witness :
    ∃ (g : Gerbil) (scope : Scope),
      scenario sampleHost "d" guardedTests =
        some (g, scope, Completion.throw (JSValue.string "again")) ∧
      (calls g.trace).getLast? = some (Target.before, [("seen", JSValue.boolean true)]) ∧
      summaries g.trace = [] := by
  obtain ⟨g, scope, c, h1, h2⟩ := hook_raise_aborts_run sampleHost "d" guardedTests
  have e : (scenario sampleHost "d" guardedTests).map (fun r => calls r.1.trace) =
      some [(Target.setup, []), (Target.before, []),
        (Target.test "a", [("seen", JSValue.boolean true)]),
        (Target.after, [("seen", JSValue.boolean true)]),
        (Target.before, [("seen", JSValue.boolean true)])] := rfl
  rw [h1] at e
  simp only [Option.map_some', Option.some.injEq] at e
  obtain ⟨k1, k2, -, k4, -⟩ := h2 Target.before [("seen", JSValue.boolean true)] beforeOnce
    (JSValue.string "again") (by rw [e]; simp) rfl rfl
  subst k1
  refine ⟨g, scope, h1, k2, k4.mpr (Or.inl ?_)⟩
  rw [executed_eq, e]
  decide

/-- Claim C6 fails on the code. In the run of `{ a: passes }`, on every host,
the summary line is logged inside `execute`, during `consume`, right after the
verdict of the last test, and the timer is given `undefined` as its handler.
When the timer returns, the `after` hook of the last test and `cleanup` are
called after the summary line; when the timer throws, they are not called at
all and the run throws what the timer threw. -/
theorem summary_emitted_inside_execute (h : Host) :
    (scenario h "d" [("a", passes)]).map (fun r => (r.1.trace, r.2.2)) =
      some ([Event.info "== Running d ==",
        Event.invoke Target.setup [],
        Event.invoke Target.before [],
        Event.invoke (Target.test "a") [],
        Event.log "   * a (0 assertions)",
        Event.warn "All tests completed: 1 passed, 0 failed of 1 tests",
        Event.info "",
        Event.setTimeout JSValue.undefined 0] ++
        (match h.setTimeout JSValue.undefined 0 with
          | Completion.normal => [Event.invoke Target.after [], Event.invoke Target.cleanup []]
          | Completion.throw _ => []),
        h.setTimeout JSValue.undefined 0) := by
  cases ht : h.setTimeout JSValue.undefined 0 with
  | normal =>
    simp [scenario, Gerbil.consume, Gerbil.enqueue, Gerbil.create, Gerbil.invoke, Gerbil.drain, Gerbil.iteration, Gerbil.extract_test, Gerbil.emit, Gerbil.Queue.new, Gerbil.Queue.push, Gerbil.Queue.pull, Gerbil.execute, Gerbil.ok, Gerbil.fail, Gerbil.summary, passes, noop, List.lookup, toText, ht]
    exact ⟨rfl, rfl⟩
  | throw v =>
    simp [scenario, Gerbil.consume, Gerbil.enqueue, Gerbil.create, Gerbil.invoke, Gerbil.drain, Gerbil.iteration, Gerbil.extract_test, Gerbil.emit, Gerbil.Queue.new, Gerbil.Queue.push, Gerbil.Queue.pull, Gerbil.execute, Gerbil.ok, Gerbil.fail, Gerbil.summary, passes, noop, List.lookup, toText, ht]
    exact ⟨rfl, rfl⟩

/-- Claim C7. For every two arrays, `assert_equal` returns normally if and
only if they have the same length and the items at every position are
loosely equal; it throws the `Different Lengths` signal when the lengths
differ; and when the lengths agree it throws the `Items not equal` signal of
the first position at which the items are not loosely equal. -/
theorem assert_equal_arrays (h : Host) (g : Gerbil) (r1 r2 : Nat) (xs ys : List JSValue) :
    ((g.assert_equal h (JSValue.array r1 xs) (JSValue.array r2 ys)).2 = Completion.normal ↔
      xs.length = ys.length ∧ ∀ i, i < xs.length →
        looseEq h (xs.getD i JSValue.undefined) (ys.getD i JSValue.undefined) = true) ∧
    (xs.length ≠ ys.length →
      (g.assert_equal h (JSValue.array r1 xs) (JSValue.array r2 ys)).2 =
        Completion.throw (JSValue.string (Gerbil.Error h "Different Lengths"))) ∧
    (xs.length = ys.length → ∀ k, k < xs.length →
      (∀ j, j < k → looseEq h (xs.getD j JSValue.undefined) (ys.getD j JSValue.undefined) = true) →
      looseEq h (xs.getD k JSValue.undefined) (ys.getD k JSValue.undefined) = false →
      (g.assert_equal h (JSValue.array r1 xs) (JSValue.array r2 ys)).2 =
        Completion.throw (JSValue.string (Gerbil.Error h ("Items not equal " ++
          toText h (xs.getD k JSValue.undefined) ++ " != " ++
          toText h (ys.getD k JSValue.undefined))))) := by
  rw [assert_equal_array_eq]
  refine ⟨?_, ?_, ?_⟩
  · by_cases hl : xs.length = ys.length
    · simp only [hl, if_true, true_and, itemsLoop_normal, itemOf, Nat.zero_le, Nat.zero_add,
        forall_const]
    · simp [hl]
  · intro hl
    simp [hl]
  · intro hl k hk hpre hne
    simp only [hl, if_true]
    have := itemsLoop_mismatch h (JSValue.array r1 xs) (JSValue.array r2 ys) ys.length 0 k
      (Nat.zero_le k) (by omega) (fun j _ hj => hpre j hj) hne
    exact this

/-- The arrays `[1, 2, 3]` and `[1, 2, 3]` pass; `[1, 2]` and `[1, 2, 3]` fail
with `Different Lengths`. -/
theorem assert_equal_arrays_witness :
    ((Gerbil.create "d" []).assert_equal sampleHost (JSValue.array 0 [one, two, three]) (JSValue.array 1 [one, two, three])).2
      = Completion.normal ∧
    ((Gerbil.create "d" []).assert_equal sampleHost (JSValue.array 0 [one, two]) (JSValue.array 1 [one, two, three])).2
      = Completion.throw (JSValue.string (Gerbil.Error sampleHost "Different Lengths")) := by
  refine ⟨?_, ?_⟩
  · refine (assert_equal_arrays sampleHost (Gerbil.create "d" []) 0 1 [one, two, three] [one, two, three]).1.mpr ⟨rfl, ?_⟩
    intro i hi
    have : i = 0 ∨ i = 1 ∨ i = 2 := by simp at hi; omega
    rcases this with e | e | e <;> subst e <;> simp [one, two, three, looseEq, JSNumber.eq]
  · exact (assert_equal_arrays sampleHost (Gerbil.create "d" []) 0 1 [one, two] [one, two, three]).2.1 (by simp)

/-- Claim C8 fails on the code. `"a"` and `"b"` are not loosely equal, yet
`assert_equal("a", "b")` returns normally, as `assert_equal` does for every
two strings: the label `String, Number` of the `switch` is `Number`. -/
theorem assert_equal_strings_unchecked (h : Host) (g : Gerbil) :
    looseEq h (JSValue.string "a") (JSValue.string "b") = false ∧
    (g.assert_equal h (JSValue.string "a") (JSValue.string "b")).2 = Completion.normal ∧
    ∀ a b : String, (g.assert_equal h (JSValue.string a) (JSValue.string b)).2 = Completion.normal := by
  refine ⟨by simp [looseEq], by simp [Gerbil.assert_equal, looseEq, typeof, constructorOf, Gerbil.comma], ?_⟩
  intro a b
  simp [Gerbil.assert_equal, looseEq, typeof, constructorOf, Gerbil.comma]

/-- Claim C9 fails on the code. When `fn` throws a string and
`expected_error` is a function, the two runtime types differ and
`assert_throw` returns normally; when `fn` throws an object and
`expected_error` is an object, the two runtime types are equal and
`assert_throw` throws `E was expected but E was raised.`. -/
theorem assert_throw_inverted (h : Host) (g : Gerbil) :
    (typeof (JSValue.string "boom") ≠ typeof (JSValue.function 1 "Error") ∧
      (g.assert_throw h (JSValue.function 1 "Error")
        (fun _ => Completion.throw (JSValue.string "boom"))).2 = Completion.normal) ∧
    (typeof (JSValue.object 2 Ctor.Other (some "E")) = typeof (JSValue.object 1 Ctor.Other (some "E")) ∧
      (g.assert_throw h (JSValue.object 1 Ctor.Other (some "E"))
        (fun _ => Completion.throw (JSValue.object 2 Ctor.Other (some "E")))).2 =
        Completion.throw (JSValue.string (Gerbil.Error h "E was expected but E was raised."))) := by
  refine ⟨⟨by decide, ?_⟩, rfl, ?_⟩
  · simp [Gerbil.assert_throw, typeof, truthy]
  · simp [Gerbil.assert_throw, typeof, truthy, Gerbil.nameOf, toText]

/-- Claim C10 fails on the code. `assert_equal(1, "1")` (different runtime
types) and `assert_equal(undefined, 1)` (an absent operand) throw and leave
`assertions` as it was, while `assert_equal([], [null])` (different lengths)
throws and adds one. -/
theorem assert_equal_guard_uncounted (h : Host) (g : Gerbil) :
    (g.assert_equal h (JSValue.number (JSNumber.fin 1)) (JSValue.string "1")).1.assertions = g.assertions ∧
    (g.assert_equal h JSValue.undefined (JSValue.number (JSNumber.fin 1))).1.assertions = g.assertions ∧
    (g.assert_equal h (JSValue.array 0 []) (JSValue.array 1 [JSValue.null])).1.assertions = g.assertions + 1 := by
  refine ⟨?_, ?_, ?_⟩
  · simp [Gerbil.assert_equal, looseEq, typeof]
  · simp [Gerbil.assert_equal, looseEq]
  · simp [Gerbil.assert_equal, looseEq, typeof, constructorOf, lengthOf, JSNumber.eq]

/-- Claim C11. For every value `e`, `assert(e)` adds exactly one to
`assertions`, whether or not it fails, and it throws the `Assertion Failed`
signal if and only if `e` is falsy; it returns normally if and only if `e` is
truthy. `assert(true)` adds one and returns, `assert(false)` adds one and
fails. -/
theorem assert_counts_and_checks (h : Host) (g : Gerbil) (e : JSValue) :
    (g.assert h e).1.assertions = g.assertions + 1 ∧
    ((g.assert h e).2 = Completion.throw (JSValue.string (Gerbil.Error h "Assertion Failed")) ↔
      truthy e = false) ∧
    ((g.assert h e).2 = Completion.normal ↔ truthy e = true) ∧
    (g.assert h (JSValue.boolean true)).2 = Completion.normal ∧
    (g.assert h (JSValue.boolean true)).1.assertions = g.assertions + 1 ∧
    (g.assert h (JSValue.boolean false)).2 =
      Completion.throw (JSValue.string (Gerbil.Error h "Assertion Failed")) ∧
    (g.assert h (JSValue.boolean false)).1.assertions = g.assertions + 1 := by
  refine ⟨?_, ?_, ?_, ?_, ?_, ?_, ?_⟩
  · simp only [Gerbil.assert]; split <;> rfl
  · cases ht : truthy e <;> simp [Gerbil.assert, ht]
  · cases ht : truthy e <;> simp [Gerbil.assert, ht]
  · simp [Gerbil.assert, truthy]
  · simp [Gerbil.assert, truthy]
  · simp [Gerbil.assert, truthy]
  · simp [Gerbil.assert, truthy]

/-- Claim C12. For every two operands that are both present (neither
`undefined` nor `null`) and whose runtime types differ, `assert_equal` throws
the signal `Different type <type of first> vs <type of second>`, whatever
their values. -/
theorem assert_equal_different_types (h : Host) (g : Gerbil) (first second : JSValue)
    (h1 : first ≠ JSValue.undefined ∧ first ≠ JSValue.null)
    (h2 : second ≠ JSValue.undefined ∧ second ≠ JSValue.null)
    (ht : typeof first ≠ typeof second) :
    (g.assert_equal h first second).2 = Completion.throw (JSValue.string (Gerbil.Error h
      ("Different type " ++ typeof first ++ " vs " ++ typeof second))) := by
  have e1 : looseEq h first JSValue.undefined = false := by
    rw [← Bool.not_eq_true, looseEq_undefined]; tauto
  have e2 : looseEq h second JSValue.undefined = false := by
    rw [← Bool.not_eq_true, looseEq_undefined]; tauto
  simp [Gerbil.assert_equal, e1, e2, ht]

/-- On a host for which `1 == "1"` holds, `assert_equal(1, "1")` fails with
`Different type number vs string`. -/
theorem assert_equal_different_types_witness :
    looseEq coercingHost one (JSValue.string "1") = true ∧
    ((Gerbil.create "d" []).assert_equal coercingHost one (JSValue.string "1")).2 =
      Completion.throw (JSValue.string "Different type number vs string") :=
  ⟨rfl, assert_equal_different_types coercingHost (Gerbil.create "d" []) one (JSValue.string "1")
    ⟨by simp [one], by simp [one]⟩ ⟨by simp, by simp⟩ (by decide)⟩

/-- Claim C13. For every `expected_error` whose property `name` is the text
`name`, and every `fn` that returns without throwing, `assert_throw` adds one
to `assertions` and throws the signal `<name> was expected but not raised.`. -/
theorem assert_throw_not_raised (h : Host) (g : Gerbil) (expected_error : JSValue)
    (fn : Unit → Completion) (name : String)
    (hn : Gerbil.nameOf h expected_error = Except.ok (JSValue.string name))
    (hf : fn () = Completion.normal) :
    (g.assert_throw h expected_error fn).1.assertions = g.assertions + 1 ∧
    (g.assert_throw h expected_error fn).2 = Completion.throw (JSValue.string
      (Gerbil.Error h (name ++ " was expected but not raised."))) := by
  have hne : name ++ " was expected but not raised." ≠ "" :=
    append_ne_empty _ _ (by decide)
  simp [Gerbil.assert_throw, hn, hf, toText, truthy, hne]

/-- With `Error` expected and a `fn` that returns: one assertion counted,
and the signal `Error was expected but not raised.`. -/
theorem assert_throw_not_raised_witness :
    ((Gerbil.create "d" []).assert_throw sampleHost (JSValue.function 1 "Error")
        (fun _ => Completion.normal)).1.assertions = 1 ∧
    ((Gerbil.create "d" []).assert_throw sampleHost (JSValue.function 1 "Error")
        (fun _ => Completion.normal)).2 =
      Completion.throw (JSValue.string "Error was expected but not raised.") :=
  assert_throw_not_raised sampleHost (Gerbil.create "d" []) (JSValue.function 1 "Error")
    (fun _ => Completion.normal) "Error" rfl rfl

/-- Claim C14. For every pair of operands of which at least one is
`undefined`, `assert_equal` throws the signal
`attr1 = <first> (<type>) and attr2 = <second> (<type>)`, which reports both
operands and both runtime types, whatever the other operand is. -/
theorem assert_equal_absent_operand (h : Host) (g : Gerbil) (first second : JSValue)
    (ha : first = JSValue.undefined ∨ second = JSValue.undefined) :
    (g.assert_equal h first second).2 = Completion.throw (JSValue.string (Gerbil.Error h
      ("attr1 = " ++ toText h first ++ " (" ++ typeof first ++ ") and attr2 = " ++
        toText h second ++ " (" ++ typeof second ++ ")"))) := by
  have e : (looseEq h first JSValue.undefined || looseEq h second JSValue.undefined) = true := by
    rcases ha with rfl | rfl
    · simp [looseEq]
    · rw [Bool.or_eq_true]; right; exact (looseEq_undefined h _).mpr (Or.inl rfl)
  simp only [Gerbil.assert_equal, e, if_true]
  simp [String.append_assoc]

/-- Both operands absent, and only the second absent. -/
theorem assert_equal_absent_operand_witness :
    ((Gerbil.create "d" []).assert_equal sampleHost JSValue.undefined JSValue.undefined).2 =
      Completion.throw (JSValue.string
        "attr1 = undefined (undefined) and attr2 = undefined (undefined)") ∧
    ((Gerbil.create "d" []).assert_equal sampleHost (JSValue.string "a") JSValue.undefined).2 =
      Completion.throw (JSValue.string
        "attr1 = a (string) and attr2 = undefined (undefined)") :=
  ⟨assert_equal_absent_operand sampleHost (Gerbil.create "d" []) JSValue.undefined
      JSValue.undefined (Or.inl rfl),
    assert_equal_absent_operand sampleHost (Gerbil.create "d" []) (JSValue.string "a")
      JSValue.undefined (Or.inr rfl)⟩

/-- Claim C15. For every two numbers, `assert_equal` throws the signal
`Not equal <first> != <second>` if and only if they are not loosely equal, and
returns normally if and only if they are. `1` and `2` fail, `1` and `1` pass,
`NaN` and `NaN` fail. -/
theorem assert_equal_numbers (h : Host) (g : Gerbil) (a b : JSNumber) :
    ((g.assert_equal h (JSValue.number a) (JSValue.number b)).2 =
        Completion.throw (JSValue.string (Gerbil.Error h
          ("Not equal " ++ toText h (JSValue.number a) ++ " != " ++
            toText h (JSValue.number b)))) ↔
      looseEq h (JSValue.number a) (JSValue.number b) = false) ∧
    ((g.assert_equal h (JSValue.number a) (JSValue.number b)).2 = Completion.normal ↔
      looseEq h (JSValue.number a) (JSValue.number b) = true) ∧
    (g.assert_equal h one two).2 =
      Completion.throw (JSValue.string (Gerbil.Error h
        ("Not equal " ++ toText h one ++ " != " ++ toText h two))) ∧
    (g.assert_equal h one one).2 = Completion.normal ∧
    (g.assert_equal h (JSValue.number JSNumber.nan) (JSValue.number JSNumber.nan)).2 ≠
      Completion.normal := by
  have hl : looseEq h (JSValue.number a) (JSValue.number b) = a.eq b := rfl
  have key : (g.assert_equal h (JSValue.number a) (JSValue.number b)).2 =
      if a.eq b = true then Completion.normal
      else Completion.throw (JSValue.string (Gerbil.Error h
          ("Not equal " ++ toText h (JSValue.number a) ++ " != " ++
            toText h (JSValue.number b)))) := by
    cases he : a.eq b <;>
      simp [Gerbil.assert_equal, typeof, constructorOf, Gerbil.comma, he, looseEq]
  rw [hl, key]
  refine ⟨?_, ?_, ?_, ?_, ?_⟩
  · cases a.eq b <;> simp
  · cases a.eq b <;> simp
  · simp [Gerbil.assert_equal, typeof, constructorOf, Gerbil.comma, looseEq, one, two,
      JSNumber.eq]
  · simp [Gerbil.assert_equal, typeof, constructorOf, Gerbil.comma, looseEq, one, JSNumber.eq]
  · simp [Gerbil.assert_equal, typeof, constructorOf, Gerbil.comma, looseEq, JSNumber.eq]

/-- Claim C16. For every test mapping, after `enqueue`: the mapping has no
entry under `setup`, `before`, `after` or `cleanup`; no queued test record is
named by one of these keys; `count` is the number of the entries that remain;
the entries that remain are those of the original mapping that are not
reserved, unchanged and in the same order, and the queue holds their records;
and `extract_test` of any of the four keys now gives the default hook. -/
theorem extraction_consumes_hooks (h : Host) (d : String) (tests : List (String × Callback)) :
    (∀ k ∈ reserved, (((Gerbil.create d tests).enqueue h).tests.lookup k) = none) ∧
    (∀ e ∈ ((Gerbil.create d tests).enqueue h).tests, e.1 ∉ reserved) ∧
    (∀ r ∈ ((Gerbil.create d tests).enqueue h).queue.queue, r.name ∉ reserved) ∧
    ((Gerbil.create d tests).enqueue h).count =
      ((Gerbil.create d tests).enqueue h).tests.length ∧
    ((Gerbil.create d tests).enqueue h).tests = tests.filter (fun e => e.1 ∉ reserved) ∧
    ((Gerbil.create d tests).enqueue h).queue.pending.map TestRecord.entry =
      ((Gerbil.create d tests).enqueue h).tests ∧
    (∀ k ∈ reserved, (((Gerbil.create d tests).enqueue h).extract_test k).1 = noop) := by
  rw [enqueue_create]
  refine ⟨fun k hk => lookup_testsOf tests k hk, ?_, ?_, rfl, rfl, ?_, ?_⟩
  · intro e he
    simp only [testsOf, List.mem_filter, decide_eq_true_eq] at he
    exact he.2
  · intro r hr
    have hm : r.name ∈ (records h 0 (testsOf tests)).map TestRecord.name :=
      List.mem_map_of_mem _ hr
    rw [records_names] at hm
    obtain ⟨e, he, hn⟩ := List.mem_map.mp hm
    simp only [testsOf, List.mem_filter, decide_eq_true_eq] at he
    rw [← hn]
    exact he.2
  · simp [Gerbil.Queue.pending, records_entries]
  · intro k hk
    simp only [Gerbil.extract_test, lookup_testsOf tests k hk]
    rfl

/-- After `enqueue` of `{ setup, a, cleanup, b }`: the mapping and the queue
hold `a` and `b`, `count` is 2, extracting `setup` again gives the default
hook. -/
theorem extraction_consumes_hooks_witness :
    markedEnqueued.tests.map Prod.fst = ["a", "b"] ∧
    markedEnqueued.queue.queue.map TestRecord.name = ["a", "b"] ∧
    markedEnqueued.count = 2 ∧
    (markedEnqueued.extract_test "setup").1 = noop :=
  ⟨rfl, rfl, rfl,
    (extraction_consumes_hooks sampleHost "d" markedTests).2.2.2.2.2.2 "setup" (by decide)⟩

namespace Gerbil.Queue

variable {α : Type}

/-- Claim C17. The compaction rule of `pull`, in every state of the queue
with at least one item not yet pulled (the reachable ones among them). With
`c = offset + 1`: if `2 * c ≥` the physical length, the physical store
becomes exactly the items not yet pulled after the removal, in order, and
`offset` becomes 0; otherwise the physical store is unchanged and `offset`
becomes `c`. The item returned is the oldest not yet pulled. `push` never
compacts: it appends, and leaves `offset` as it is. -/
theorem pull_compaction_rule (q : Gerbil.Queue α) (hne : q.pending ≠ []) :
    (2 * (q.offset + 1) ≥ q.queue.length →
      q.pull.2 = { queue := q.queue.drop (q.offset + 1), offset := 0 } ∧
      q.pull.2.queue = q.pending.tail) ∧
    (2 * (q.offset + 1) < q.queue.length →
      q.pull.2 = { queue := q.queue, offset := q.offset + 1 }) ∧
    q.pull.1 = q.pending.head? ∧
    (∀ item : α, (q.push item).offset = q.offset ∧ (q.push item).queue = q.queue ++ [item]) := by
  have hlen : q.queue.length ≠ 0 := by
    intro h0
    apply hne
    simp [pending, List.length_eq_zero.mp h0]
  refine ⟨fun hc => ?_, fun hc => ?_, pull_fst q, fun item => ⟨rfl, rfl⟩⟩
  · have e : q.pull.2 = { queue := q.queue.drop (q.offset + 1), offset := 0 } := by
      rw [pull_eq]
      simp only [hlen, if_false]
      rw [if_pos (by omega)]
    refine ⟨e, ?_⟩
    rw [e]
    simp [pending, List.tail_drop]
  · rw [pull_eq]
    simp only [hlen, if_false]
    rw [if_neg (by omega)]

/-- From three items pushed: the first `pull` keeps the store and moves the
offset to 1, the second trims the store to the one item left. -/
theorem pull_compaction_rule_witness :
    (threeItems.pull.2 = { queue := [1, 2, 3], offset := 1 }) ∧
    (threeItems.pull.2.pull.2 = { queue := [3], offset := 0 }) :=
  ⟨(pull_compaction_rule threeItems (by decide)).2.1 (by decide),
    ((pull_compaction_rule threeItems.pull.2 (by decide)).1 (by decide)).1⟩

/-- Claim C19. In every state reached from a new queue by `push` and
`pull`, either `offset = 0` or `2 * offset <` the physical length. So `offset`
never exceeds the physical length, `length()` is never negative, the physical
store is empty exactly when `length()` is 0, `pull` gives the empty signal
exactly when `length()` is 0, and on a store that is not empty `pull` reads a
slot within the store. -/
theorem queue_invariant (q : Gerbil.Queue α) (hr : Reachable q) :
    (q.offset = 0 ∨ 2 * q.offset < q.queue.length) ∧
    q.offset ≤ q.queue.length ∧
    0 ≤ q.length ∧
    (q.queue.length = 0 ↔ q.length = 0) ∧
    (q.length = 0 ↔ q.pull.1 = none) ∧
    (q.queue.length ≠ 0 → q.offset < q.queue.length ∧ ∃ item, q.queue.get? q.offset = some item ∧
      q.pull.1 = some item) := by
  have hi := inv_of_reachable q hr
  have hle : q.offset ≤ q.queue.length := by
    rcases hi with h | h <;> omega
  have hlen := length_eq q hi
  refine ⟨hi, hle, ?_, ?_, ?_, ?_⟩
  · rw [hlen]; exact Int.natCast_nonneg _
  · simp only [length]
    rcases hi with h | h <;> omega
  · rw [hlen, pull_fst]
    cases hp : q.pending with
    | nil => simp
    | cons x l =>
      simp only [List.length_cons, List.head?_cons, reduceCtorEq, iff_false]
      omega
  · intro hne
    have hlt : q.offset < q.queue.length := by
      rcases hi with h | h <;> omega
    refine ⟨hlt, q.queue[q.offset], ?_, ?_⟩
    · simp [List.getElem?_eq_getElem hlt]
    · rw [pull_fst]
      simp [pending, List.head?_drop, List.getElem?_eq_getElem hlt]

/-- The state after three pushes and one pull. -/
theorem queue_invariant_witness :
    threeItems.pull.2.offset = 1 ∧ threeItems.pull.2.length = 2 ∧
    (threeItems.pull.2.offset = 0 ∨ 2 * threeItems.pull.2.offset < threeItems.pull.2.queue.length) :=
  ⟨rfl, rfl, (queue_invariant threeItems.pull.2
    (Reachable.pull _ (Reachable.push _ _ (Reachable.push _ _ (Reachable.push _ _
      Reachable.new))))).1⟩

end Gerbil.Queue

/-- Claim C18. For every run, the lines sent to `log` are, for the tests
whose function returned, in the order of the run, `   * <name> (<A> assertions)`
where `A` is the value of `assertions` when that test returns: the number of
the increments made by all the calls of hooks and tests so far in the run
(`runReports`). The counter is never reset, so the values logged are
non-decreasing along the run. -/
theorem ok_line_reports_running_total (h : Host) (d : String)
    (tests : List (String × Callback)) :
    ∃ (g : Gerbil) (scope : Scope) (c : Completion),
      scenario h d tests = some (g, scope, c) ∧
      logLines g.trace = (runReports tests).map
        (fun r => "   * " ++ r.1 ++ " (" ++ toString r.2 ++ " assertions)") ∧
      ((runReports tests).map Prod.snd).Pairwise (· ≤ ·) := by
  obtain ⟨g1, e1, f1, f2, f3, f4, f5⟩ := scenario_start_log h d tests
  have hl := Gerbil.drainList_log h _ _ (records h 0 (testsOf tests)) g1
    (hookOf tests "setup" []).scope f1 f2 f5
  rw [records_entries, f3, f4, List.nil_append] at hl
  rw [e1]
  unfold runReports
  cases hs : (hookOf tests "setup" []).result with
  | throw v => exact ⟨g1, _, _, rfl, by simp [f4], by simp⟩
  | normal =>
    simp only
    rcases hd : Gerbil.drainList h (records h 0 (testsOf tests)) g1
      (hookOf tests "setup" []).scope with ⟨g2, s2, c2⟩
    rw [hd] at hl
    simp only at hl
    cases c2 with
    | throw v => exact ⟨g2, _, _, rfl, hl, okReports_sorted _ _ _ _ _⟩
    | normal =>
      refine ⟨(Gerbil.invoke h g2 Target.cleanup g2.cleanup s2).1,
        (Gerbil.invoke h g2 Target.cleanup g2.cleanup s2).2.1,
        (Gerbil.invoke h g2 Target.cleanup g2.cleanup s2).2.2, rfl, ?_,
        okReports_sorted _ _ _ _ _⟩
      rw [Gerbil.invoke_log, hl]
      rfl

/-- The run of `{ setup: asserting(1), a: asserting(2), b: failing(1, "x"),
c: passes }`: `a` is logged with 3 assertions and `c`, which makes none, with
4. -/
theorem ok_line_reports_running_total_witness :
    ∃ (g : Gerbil) (scope : Scope) (c : Completion),
      scenario sampleHost "d" countingTests = some (g, scope, c) ∧
      logLines g.trace = ["   * a (3 assertions)", "   * c (4 assertions)"] := by
  obtain ⟨g, scope, c, h1, h2, -⟩ := ok_line_reports_running_total sampleHost "d" countingTests
  exact ⟨g, scope, c, h1, h2⟩

/-- Claim C20. For every host and every run in which no hook throws,
`consume` ends with `success + failures = count = N`. When `N ≥ 1`, the trace
has the summary exactly once: before it all `N` tests have been executed and
there is no summary event, after it no test is executed and there is no
summary event, and its line carries the final values of `success`, `failures`
and `count`; the run then ends as the call of the host timer that follows
the summary ends. When `N = 0`, the run returns, no test is executed, there is
no summary event, and the calls are `setup` and `cleanup`. -/
theorem completion_check_fires_once (h : Host) (d : String)
    (tests : List (String × Callback))
    (hs : (hookOf tests "setup" []).result = Completion.normal)
    (hq : quiet (hookOf tests "before") (hookOf tests "after")
      (hookOf tests "setup" []).scope (testsOf tests))
    (hc : (hookOf tests "cleanup" (scopeAfter (hookOf tests "before") (hookOf tests "after")
      (hookOf tests "setup" []).scope (testsOf tests))).result = Completion.normal) :
    ∃ (g : Gerbil) (scope : Scope) (c : Completion),
      scenario h d tests = some (g, scope, c) ∧
      g.count = (testsOf tests).length ∧ g.success + g.failures = g.count ∧
      (testsOf tests ≠ [] → ∃ (t1 t2 : List Event) (delay : Nat),
        g.trace = t1 ++ [Event.warn (summaryLine g.success g.failures g.count), Event.info "",
          Event.setTimeout JSValue.undefined delay] ++ t2 ∧
        summaries t1 = [] ∧ executed t1 = (testsOf tests).map Prod.fst ∧
        summaries t2 = [] ∧ executed t2 = [] ∧
        c = h.setTimeout JSValue.undefined delay) ∧
      (testsOf tests = [] →
        c = Completion.normal ∧ summaries g.trace = [] ∧ executed g.trace = [] ∧
        calls g.trace = [(Target.setup, []), (Target.cleanup, (hookOf tests "setup" []).scope)]) := by
  rcases List.eq_nil_or_concat (testsOf tests) with hnil | ⟨pre, e, hT⟩
  · obtain ⟨g, h1, h2, h3, h4, h5, h6, -⟩ := scenario_empty h d tests hnil hs
    rw [hnil] at hc
    simp only [scopeAfter] at hc
    rw [hc] at h1
    refine ⟨g, _, _, h1, ?_, ?_, fun hne => absurd hnil hne, fun _ => ⟨rfl, h3, ?_, h2⟩⟩
    · rw [h4, hnil]; rfl
    · rw [h4, h5, h6]
    · rw [executed_eq, h2]
      rfl
  · rw [List.concat_eq_append] at hT
    obtain ⟨g, scope, t1, t2, delay, h1, h2, h3, h4, h5, h6, h7, -, -, h10, h11⟩ :=
      scenario_quiet h d tests pre e hT hs hq hc
    refine ⟨g, scope, _, h1, h2, ?_, fun _ => ⟨t1, t2, delay, h5, h7, ?_, h10, h11, rfl⟩,
      fun hnil => ?_⟩
    · rw [h3, h4, h2, count_true_add_false, verdicts_length]
    · rw [executed_eq, h6, hT, roundCalls_dropLast]
      simp [List.filterMap_cons, List.filterMap_append, testName, roundCalls_tests]
    · rw [hT] at hnil
      simp at hnil

/-- The run of `{ a: passes, b: throws("x"), c: passes }` has one summary,
after its three tests, and with the timer of Node it throws the `TypeError` of
the timer; the run of `{ setup, cleanup }` has none, calls both hooks and
returns. -/
theorem completion_check_fires_once_witness :
    (∃ (g : Gerbil) (scope : Scope) (t1 t2 : List Event) (delay : Nat),
      scenario sampleHost "d" abcTests = some (g, scope,
        Completion.throw (JSValue.object 0 Ctor.Other (some "TypeError"))) ∧
      g.trace = t1 ++ [Event.warn "All tests completed: 2 passed, 1 failed of 3 tests",
        Event.info "", Event.setTimeout JSValue.undefined delay] ++ t2 ∧
      summaries t1 = [] ∧ executed t1 = ["a", "b", "c"] ∧
      summaries t2 = [] ∧ executed t2 = []) ∧
    (∃ (g : Gerbil) (scope : Scope),
      scenario sampleHost "d" hooksOnly = some (g, scope, Completion.normal) ∧
      summaries g.trace = [] ∧
      calls g.trace = [(Target.setup, []), (Target.cleanup, [("s", JSValue.boolean true)])]) := by
  constructor
  · obtain ⟨g, scope, c, h1, -, -, h4, -⟩ :=
      completion_check_fires_once sampleHost "d" abcTests rfl
        ⟨rfl, rfl, rfl, rfl, rfl, rfl, trivial⟩ rfl
    obtain ⟨t1, t2, delay, k1, k2, k3, k4, k5, k6⟩ :=
      h4 (fun hh => absurd (congrArg List.length hh) (by decide))
    have hv : (scenario sampleHost "d" abcTests).map
        (fun r => (r.1.success, r.1.failures, r.1.count)) = some (2, 1, 3) := rfl
    rw [h1] at hv
    simp only [Option.map_some', Option.some.injEq, Prod.mk.injEq] at hv
    obtain ⟨v1, v2, v3⟩ := hv
    rw [v1, v2, v3] at k1
    have hk : c = Completion.throw (JSValue.object 0 Ctor.Other (some "TypeError")) := by
      rw [k6]; rfl
    subst hk
    exact ⟨g, scope, t1, t2, delay, h1, k1, k2, k3, k4, k5⟩
  · obtain ⟨g, scope, c, h1, -, -, -, h5⟩ :=
      completion_check_fires_once sampleHost "d" hooksOnly rfl trivial rfl
    obtain ⟨k0, k1, -, k3⟩ := h5 rfl
    subst k0
    exact ⟨g, scope, h1, k1, k3⟩

end GerbilJS
